import Mathlib

/-!
# Verification of the Educational Article Generator layout engine

Shallow embedding of the two Python applications in this repository
(`app.py`, the Gemini/fpdf2 variant, and `main.py`, the FLAN-T5/FPDF
variant) and proofs about the article-to-PDF layout pass.

Strings are modelled as Lean `String` (a wrapper around `List Char`);
most operations are defined on `List Char` with `String` wrappers.
Python string primitives (`strip`, `split`, `splitlines`, `upper`,
`lower`, `title`, `rstrip`, slicing) are embedded with their CPython
semantics; case conversion is the ASCII fragment (`Char.toUpper` /
`Char.toLower`), which agrees with CPython on all ASCII text.

The `textwrap.TextWrapper(width=90, replace_whitespace=False)` call in
`app.py` is embedded following the CPython implementation of
`textwrap.py`: `_munge_whitespace` (tab expansion), the `wordsep_re`
chunker (whitespace runs, em-dashes, hyphenated-word splitting), and
the greedy `_wrap_chunks` loop with `drop_whitespace`,
`break_long_words` and `break_on_hyphens` at their default `True`.
The loops are written with an explicit fuel argument; the fuel supplied
by the wrappers exceeds the number of iterations the loops can perform
(every iteration strictly decreases the total residual length plus
chunk count), so the fuel-exhaustion branches are unreachable.

FPDF (both classic FPDF and fpdf2 with the core Helvetica/Arial fonts)
can only render characters of the latin-1 range; feeding any cell text
containing a character above U+00FF makes PDF production raise.  The
document backends are embedded as builders of draw-instruction lists
(`PdfOp`), and PDF creation returns `Except String (String × List PdfOp)`,
failing exactly when some emitted text holds a character above U+00FF.
-/

/-! ## Character classes -/

/-- Python whitespace, the set stripped by `str.strip()` / split by
`str.split()` (ASCII whitespace, the C1 controls 0x1c–0x1f, NEL, NBSP
and the Unicode space separators). -/
def pyWs (c : Char) : Bool :=
  let n := c.val.toNat
  n = 32 || n = 9 || n = 10 || n = 13 || n = 11 || n = 12 ||
  n = 28 || n = 29 || n = 30 || n = 31 ||
  n = 0x85 || n = 0xa0 || n = 0x1680 ||
  (0x2000 ≤ n && n ≤ 0x200a) ||
  n = 0x2028 || n = 0x2029 || n = 0x202f || n = 0x205f || n = 0x3000

/-- The whitespace set of `textwrap` (`string.whitespace`,
`'\t\n\x0b\x0c\r '`). -/
def twWs (c : Char) : Bool :=
  let n := c.val.toNat
  n = 32 || n = 9 || n = 10 || n = 11 || n = 12 || n = 13

/-- Line boundaries recognised by `str.splitlines()`. -/
def nlChar (c : Char) : Bool :=
  let n := c.val.toNat
  n = 10 || n = 13 || n = 11 || n = 12 ||
  n = 28 || n = 29 || n = 30 ||
  n = 0x85 || n = 0x2028 || n = 0x2029

/-- ASCII model of the regex class `\w` (letters, digits, underscore). -/
def wordChar (c : Char) : Bool := c.isAlphanum || c = '_'

/-- ASCII model of the `textwrap` regex class `[^\d\W]`
(word characters that are not digits). -/
def letterChar (c : Char) : Bool := c.isAlpha || c = '_'

/-- The `textwrap` regex class `[\w!"'&.,?]` of word punctuation. -/
def wordPunct (c : Char) : Bool :=
  wordChar c || c = '!' || c = '"' || c = '\'' || c = '&' ||
  c = '.' || c = ',' || c = '?'

/-! ## List-level helpers -/

/-- Concatenation of a list of character lists. -/
def cat (ls : List (List Char)) : List Char := ls.foldr (· ++ ·) []


/-- `startsSeg p l` holds when `p` is an initial segment of `l`. -/
def startsSeg : List Char → List Char → Bool
  | [], _ => true
  | _ :: _, [] => false
  | a :: as, b :: bs => a = b && startsSeg as bs

/-- `hasSeg p l` holds when `p` occurs contiguously inside `l`. -/
def hasSeg (p : List Char) : List Char → Bool
  | [] => startsSeg p []
  | l@(_ :: t) => startsSeg p l || hasSeg p t


/-! ## Python string primitives -/

/-- `str.lstrip()` on character lists. -/
def lstripL (l : List Char) : List Char := l.dropWhile pyWs

/-- `str.rstrip()` on character lists. -/
def rstripL (l : List Char) : List Char := (l.reverse.dropWhile pyWs).reverse

/-- `str.strip()` on character lists. -/
def stripL (l : List Char) : List Char := rstripL (lstripL l)

/-- `str.strip()`. -/
def pyStrip (s : String) : String := ⟨stripL s.data⟩

/-- `str.rstrip()` (no argument). -/
def pyRStrip (s : String) : String := ⟨rstripL s.data⟩

/-- `str.rstrip(':')` on character lists. -/
def rstripColonsL (l : List Char) : List Char :=
  (l.reverse.dropWhile (· = ':')).reverse

/-- `str.rstrip(':')`. -/
def pyRStripColons (s : String) : String := ⟨rstripColonsL s.data⟩

/-- `str.upper()` (ASCII fragment, applied per character). -/
def pyUpper (s : String) : String := ⟨s.data.map Char.toUpper⟩

/-- `str.lower()` (ASCII fragment, applied per character). -/
def pyLower (s : String) : String := ⟨s.data.map Char.toLower⟩

/-- `str.endswith(":")`. -/
def endsWithColon (s : String) : Bool :=
  match s.data.getLast? with
  | some c => c = ':'
  | none => false

/-- Fuelled worker for `str.split()` (split on whitespace runs,
discarding empty fields). -/
def splitWsGo : Nat → List Char → List (List Char)
  | 0, l => if l.isEmpty then [] else [l]
  | _ + 1, [] => []
  | fuel + 1, c :: rest =>
    if pyWs c then splitWsGo fuel rest
    else
      (c :: rest.takeWhile (fun d => !pyWs d)) ::
        splitWsGo fuel (rest.dropWhile (fun d => !pyWs d))

/-- `str.split()` on character lists. -/
def splitWsL (l : List Char) : List (List Char) := splitWsGo (l.length + 1) l

/-- `str.split()`, as used by `len(stripped.split())` in `app.py`. -/
def pySplitWs (s : String) : List String := (splitWsL s.data).map String.mk

/-- Fuelled worker for `str.splitlines()`. -/
def splitlinesGo : Nat → List Char → List Char → List (List Char)
  | 0, acc, l => if acc.isEmpty && l.isEmpty then [] else [acc.reverse ++ l]
  | _ + 1, acc, [] => if acc.isEmpty then [] else [acc.reverse]
  | fuel + 1, acc, c :: rest =>
    if nlChar c then
      acc.reverse ::
        (if c = '\r' then
          match rest with
          | '\n' :: rest' => splitlinesGo fuel [] rest'
          | _ => splitlinesGo fuel [] rest
        else splitlinesGo fuel [] rest)
    else splitlinesGo fuel (c :: acc) rest

/-- `str.splitlines()` on character lists. -/
def splitlinesL (l : List Char) : List (List Char) :=
  splitlinesGo (l.length + 1) [] l

/-- `str.splitlines()`. -/
def pySplitlines (s : String) : List String := (splitlinesL s.data).map String.mk

/-- One step of `str.title()`: uppercase a letter that follows a
non-cased character, lowercase one that follows a cased character. -/
def titleGo : Bool → List Char → List Char
  | _, [] => []
  | prevCased, c :: rest =>
    if c.isAlpha then
      (if prevCased then c.toLower else c.toUpper) :: titleGo true rest
    else c :: titleGo false rest

/-- `str.title()` (ASCII fragment). -/
def pyTitle (s : String) : String := ⟨titleGo false s.data⟩

/-- Digit character for a decimal digit. -/
def digitChar (d : Nat) : Char :=
  match d % 10 with
  | 0 => '0' | 1 => '1' | 2 => '2' | 3 => '3' | 4 => '4'
  | 5 => '5' | 6 => '6' | 7 => '7' | 8 => '8' | _ => '9'

/-- Fuelled decimal numeral writer. -/
def natDigitsGo : Nat → Nat → List Char
  | 0, _ => []
  | fuel + 1, n =>
    if n < 10 then [digitChar n]
    else natDigitsGo fuel (n / 10) ++ [digitChar (n % 10)]

/-- Decimal numeral of a natural number. -/
def natDigits (n : Nat) : List Char := natDigitsGo (n + 1) n

/-- Zero-pad a numeral on the left to width `w` (as `%0wd`). -/
def padNum (w n : Nat) : List Char :=
  let d := natDigits n
  List.replicate (w - d.length) '0' ++ d

/-! ## Timestamps

`datetime.now()` is external input; a call's timestamp is modelled as an
explicit `DateTime` argument, formatted exactly as the two `strftime`
patterns used by the sources do. -/

structure DateTime where
  year : Nat
  month : Nat
  day : Nat
  hour : Nat
  minute : Nat
  second : Nat
  deriving DecidableEq, Repr

/-- `strftime("%Y%m%d_%H%M%S")`. -/
def fmtCompact (t : DateTime) : String :=
  ⟨padNum 4 t.year ++ padNum 2 t.month ++ padNum 2 t.day ++ ['_'] ++
    padNum 2 t.hour ++ padNum 2 t.minute ++ padNum 2 t.second⟩

/-- English month names for `%B`. -/
def monthName (m : Nat) : String :=
  (["January", "February", "March", "April", "May", "June", "July",
    "August", "September", "October", "November", "December"]).getD (m - 1) ""

/-- `strftime("%B %d, %Y %H:%M:%S")`. -/
def fmtDisplay (t : DateTime) : String :=
  monthName t.month ++ " " ++ ⟨padNum 2 t.day⟩ ++ ", " ++ ⟨natDigits t.year⟩ ++
    " " ++ ⟨padNum 2 t.hour⟩ ++ ":" ++ ⟨padNum 2 t.minute⟩ ++ ":" ++
    ⟨padNum 2 t.second⟩

/-! ## The CPython `textwrap` engine, for
`TextWrapper(width=90, replace_whitespace=False)` (all other options at
their defaults: `expand_tabs=True`, `drop_whitespace=True`,
`break_long_words=True`, `break_on_hyphens=True`, empty indents). -/

/-- `_munge_whitespace` with `replace_whitespace=False`: only
`str.expandtabs()` (tab stops every 8 columns; `\n`/`\r` reset the
column). -/
def expandTabsGo : Nat → List Char → List Char
  | _, [] => []
  | col, c :: rest =>
    if c = '\t' then
      List.replicate (8 - col % 8) ' ' ++ expandTabsGo 0 rest
    else if c = '\n' || c = '\r' then c :: expandTabsGo 0 rest
    else c :: expandTabsGo (col + 1) rest

/-- The hyphenated-word alternative of `wordsep_re`: the scanned chunk
(held reversed in `acc`, the already-consumed text reversed in `rev`)
ends with `-` whose two predecessors are letters (`(?<=[^\d\W]{2}-)`)
or match letter-hyphen (`(?<=[^\d\W]-[^\d\W]-)`), and the lookahead
`(?=[^\d\W]-?[^\d\W])` holds. -/
def hyphBreakHere (acc rev rest : List Char) : Bool :=
  match acc with
  | [] => false
  | c :: b =>
    c = '-' &&
    (match b ++ rev with
     | p₀ :: p₁ :: _ => letterChar p₀ &&
         (letterChar p₁ ||
          (p₁ = '-' && (match b ++ rev with
                        | _ :: _ :: p₂ :: _ => letterChar p₂
                        | _ => false)))
     | _ => false) &&
    (match rest with
     | r₀ :: r₁ :: rs => letterChar r₀ &&
         (letterChar r₁ || (r₁ = '-' && (match rs with
                                         | r₂ :: _ => letterChar r₂
                                         | _ => false)))
     | _ => false)

/-- The end-of-word alternative `(?=\s|\Z)` of `wordsep_re`. -/
def endOfWordHere (rest : List Char) : Bool :=
  match rest with
  | [] => true
  | c :: _ => twWs c

/-- The em-dash lookahead alternative `(?<=[\w!"'&.,?])(?=-{2,}\w)` of
`wordsep_re`. -/
def emDashAhead (acc rest : List Char) : Bool :=
  match acc with
  | c :: _ =>
    wordPunct c &&
      (let run := rest.takeWhile (· = '-')
       decide (2 ≤ run.length) &&
        (match rest.drop run.length with
         | d :: _ => wordChar d
         | [] => false))
  | [] => false

/-- Lazy scan of the `\S+?(...)` word alternative of `wordsep_re`:
extend the chunk one non-whitespace character at a time until the
first position where one of the three closing alternatives matches. -/
def wordScan (rev acc : List Char) : List Char → List Char × List Char
  | [] => (acc.reverse, [])
  | c :: rs =>
    if hyphBreakHere acc rev (c :: rs) || endOfWordHere (c :: rs) ||
        emDashAhead acc (c :: rs) then
      (acc.reverse, c :: rs)
    else wordScan rev (c :: acc) rs

/-- The standalone em-dash alternative of `wordsep_re`,
`(?<=[\w!"'&.,?])-{2,}(?=\w)`: at least two hyphens, preceded by word
punctuation, followed by a word character. -/
def emDashStandalone (rev : List Char) (c : Char) (rest : List Char) : Bool :=
  c = '-' &&
    (match rev with
     | p :: _ => wordPunct p
     | [] => false) &&
    decide (2 ≤ ((c :: rest).takeWhile (· = '-')).length) &&
    (match (c :: rest).drop ((c :: rest).takeWhile (· = '-')).length with
     | d :: _ => wordChar d
     | [] => false)

/-- First chunk produced by `wordsep_re` at the current position
(`rev` is the already-consumed text, reversed): a whitespace run, a
standalone em-dash run, or a word. -/
def firstChunk (rev : List Char) : List Char → List Char × List Char
  | [] => ([], [])
  | c :: rest =>
    if twWs c then
      (c :: rest.takeWhile twWs, rest.dropWhile twWs)
    else if emDashStandalone rev c rest then
      ((c :: rest).takeWhile (· = '-'),
        (c :: rest).drop (((c :: rest).takeWhile (· = '-'))).length)
    else wordScan rev [c] rest

/-- Fuelled chunking loop (`wordsep_re.split` with empties removed). -/
def chunksGo : Nat → List Char → List Char → List (List Char)
  | 0, _, l => if l.isEmpty then [] else [l]
  | _ + 1, _, [] => []
  | fuel + 1, rev, l =>
    let p := firstChunk rev l
    p.1 :: chunksGo fuel (p.1.reverse ++ rev) p.2

/-- `TextWrapper._split` on munged text. -/
def twChunks (l : List Char) : List (List Char) := chunksGo (l.length + 1) [] l

/-- A chunk that `str.strip()`s to the empty string (the
`drop_whitespace` test). -/
def stripEmpty (l : List Char) : Bool := l.all pyWs

/-- Greedy fill of the current line: consume chunks while they fit in
the 90-column width (`while chunks: ... if cur_len + l <= width`). -/
def fillGo (curLen : Nat) : List (List Char) → List (List Char) × List (List Char)
  | [] => ([], [])
  | ch :: rest =>
    if curLen + ch.length ≤ 90 then
      let p := fillGo (curLen + ch.length) rest
      (ch :: p.1, p.2)
    else ([], ch :: rest)

/-- Index of the last `-` in `l`, if any (`str.rfind('-', 0, end)` on
the whole of `l`). -/
def lastHyphen (l : List Char) : Option Nat :=
  match l.reverse.findIdx? (· = '-') with
  | some j => some (l.length - 1 - j)
  | none => none

/-- `_handle_long_word` with `break_long_words=True` and
`break_on_hyphens=True`: split the over-long chunk at `space_left`, or
just after its last hyphen inside the window when that hyphen has a
non-hyphen before it. -/
def handleLong (curLen : Nat) (ch : List Char) : List Char × List Char :=
  let spaceLeft := 90 - curLen
  let e :=
    if spaceLeft < ch.length then
      match lastHyphen (ch.take spaceLeft) with
      | some h =>
        if 0 < h && (ch.take h).any (· ≠ '-') then h + 1 else spaceLeft
      | none => spaceLeft
    else spaceLeft
  (ch.take e, ch.drop e)

/-- Initial `drop_whitespace` step of one `_wrap_chunks` iteration:
discard a leading all-whitespace chunk once some line was emitted. -/
def dropLeadWs (hasLines : Bool) (cs : List (List Char)) : List (List Char) :=
  match cs with
  | ch :: rest => if hasLines && stripEmpty ch then rest else cs
  | [] => []

/-- Sum of chunk lengths (`cur_len`). -/
def lenSum (cs : List (List Char)) : Nat := (cs.map List.length).sum

/-- The long-word step of one `_wrap_chunks` iteration. -/
def afterFill (cur rem : List (List Char)) :
    List (List Char) × List (List Char) :=
  match rem with
  | ch :: rest =>
    if 90 < ch.length then
      let p := handleLong (lenSum cur) ch
      (cur ++ [p.1], p.2 :: rest)
    else (cur, rem)
  | [] => (cur, [])

/-- Final `drop_whitespace` step: drop the last element of the current
line when it strips to nothing. -/
def dropTrail (cur : List (List Char)) : List (List Char) :=
  match cur.reverse with
  | last :: front => if stripEmpty last then front.reverse else cur
  | [] => []

/-- One iteration of the `while chunks` loop of `_wrap_chunks`:
returns the emitted line, if any, and the remaining chunks. -/
def wrapIter (hasLines : Bool) (cs : List (List Char)) :
    Option (List Char) × List (List Char) :=
  let cs₁ := dropLeadWs hasLines cs
  let f := fillGo 0 cs₁
  let a := afterFill f.1 f.2
  let cur := dropTrail a.1
  (if cur.isEmpty then none else some (cat cur), a.2)

/-- Fuelled `_wrap_chunks` loop. -/
def wrapGo : Nat → Bool → List (List Char) → List (List Char)
  | 0, _, cs => if cs.isEmpty then [] else [cat cs]
  | _ + 1, _, [] => []
  | fuel + 1, hasLines, cs =>
    let p := wrapIter hasLines cs
    match p.1 with
    | some l => l :: wrapGo fuel true p.2
    | none => wrapGo fuel hasLines p.2

/-- `TextWrapper(width=90, replace_whitespace=False).wrap` on character
lists. -/
def twWrapL (l : List Char) : List (List Char) :=
  let m := expandTabsGo 0 l
  let cs := twChunks m
  wrapGo ((cat cs).length + cs.length + 1) false cs

/-- `wrapper.wrap(stripped)` as called in `app.py`. -/
def twWrap (s : String) : List String := (twWrapL s.data).map String.mk

/-! ## Document draw instructions

The document backend (FPDF) is modelled by the sequence of draw
instructions the Python code issues; `multiCell`/`cellText` carry the
text to be rendered. -/

inductive PdfOp where
  | addPage : PdfOp
  | setFont (family style : String) (size : Nat) : PdfOp
  | setTextColor (r g b : Nat) : PdfOp
  | multiCell (h : Nat) (txt : String) (align : String) : PdfOp
  | cellText (h : Nat) (txt : String) (align : String) : PdfOp
  | cellIndent (w : Nat) : PdfOp
  | ln (h : Nat) : PdfOp
  deriving DecidableEq, Repr

/-- The text an instruction asks the backend to render, if any. -/
def PdfOp.text? : PdfOp → Option String
  | .multiCell _ t _ => some t
  | .cellText _ t _ => some t
  | _ => none

/-- A character the latin-1 core fonts of FPDF can encode. -/
def latin1Char (c : Char) : Bool := c.val.toNat ≤ 255

/-- An instruction whose text the backend can encode. -/
def PdfOp.encodable : PdfOp → Bool
  | .multiCell _ t _ => t.data.all latin1Char
  | .cellText _ t _ => t.data.all latin1Char
  | _ => true

/-- Error signalled by FPDF when a character cannot be encoded by the
core latin-1 fonts. -/
def encodingError : String :=
  "FPDFException: character outside the latin-1 range"

/-! ## `app.py` -/

namespace App

/-- `generate_article_from_gemini`: the Gemini call is external input,
modelled by its outcome — either the raw response text or the raised
exception's message.  On success the function returns the stripped
text, on failure the `ERROR:`-prefixed message (lines 81–98). -/
def generate_article_from_gemini (outcome : Except String String) : String :=
  match outcome with
  | .ok raw => pyStrip raw
  | .error e => "ERROR: Failed to generate article from Gemini: " ++ e

/-- The wrap-stage heading test of `create_pdf_from_article` (line 138):
the stripped line ends in `:` or equals its own uppercasing with at
most six words. -/
def wrapStageHeading (s : String) : Bool :=
  endsWithColon s || (s == pyUpper s && decide ((pySplitWs s).length ≤ 6))

/-- The wrap pass of `create_pdf_from_article` on one raw line
(lines 132–141): blank lines become one empty entry, heading-looking
lines pass through stripped, other lines are word-wrapped at width 90. -/
def processLine (line : String) : List String :=
  if pyStrip line = "" then [""]
  else
    let stripped := pyStrip line
    if wrapStageHeading stripped then [stripped]
    else twWrap stripped

/-- `wrapped_lines` after the wrap pass (lines 127–141). -/
def wrappedLines (article_text : String) : List String :=
  (pySplitlines article_text).flatMap processLine

/-- `safe_topic` (line 122): keep alphanumerics, spaces, hyphens and
underscores, strip, truncate to 40 characters. -/
def safeTopic (topic : String) : String :=
  ⟨(stripL (topic.data.filter
      (fun c => c.isAlphanum || c = ' ' || c = '-' || c = '_'))).take 40⟩

/-- The produced file name
`f"article_{safe_topic or 'topic'}_{timestamp}.pdf"` (line 123). -/
def pdfFilename (topic : String) (t : DateTime) : String :=
  "article_" ++ (if safeTopic topic = "" then "topic" else safeTopic topic) ++
    "_" ++ fmtCompact t ++ ".pdf"

/-- `os.path.join(out_dir, filename)` with the default `outputs` dir. -/
def pdfFilepath (topic : String) (t : DateTime) : String :=
  "outputs/" ++ pdfFilename topic t

/-- The render-stage heading test (line 166): the wrapped line ends in
`:` or its lowercasing starts with one of the six canonical labels. -/
def renderHeading (line : String) : Bool :=
  endsWithColon line ||
    (["title:", "introduction:", "key concepts:", "practical examples:",
      "further reading:", "summary:"]).any
      (fun lb => startsSeg lb.data (pyLower line).data)

/-- The bullet test (line 175). -/
def renderBullet (line : String) : Bool :=
  startsSeg "- ".data line.data || startsSeg "• ".data line.data ||
    startsSeg "* ".data line.data

/-- The display text of a heading, `line.rstrip(":").strip()`
(line 168). -/
def headingText (line : String) : String := pyStrip (pyRStripColons line)

/-- Draw instructions for one wrapped line (lines 160–183). -/
def renderLineOps (line : String) : List PdfOp :=
  if pyStrip line = "" then [.ln 4]
  else if renderHeading line then
    [.setFont "Helvetica" "B" 14, .setTextColor 40 40 80,
     .multiCell 8 (headingText line) "", .ln 2,
     .setFont "Helvetica" "" 11, .setTextColor 10 10 30]
  else if renderBullet line then
    [.setFont "Helvetica" "" 11, .cellIndent 8, .multiCell 6 line ""]
  else [.setFont "Helvetica" "" 11, .multiCell 6 line ""]

/-- The displayed title, `topic.strip() or "Educational Article"`
(line 149). -/
def displayTitle (topic : String) : String :=
  if pyStrip topic = "" then "Educational Article" else pyStrip topic

/-- The title block emitted before the body (lines 143–159): page,
centred title, centred generation-timestamp subtitle. -/
def titleBlockOps (topic : String) (t : DateTime) : List PdfOp :=
  [.addPage,
   .setFont "Helvetica" "B" 20, .setTextColor 40 40 80,
   .multiCell 10 (displayTitle topic) "C", .ln 4,
   .setFont "Helvetica" "" 10, .setTextColor 90 90 110,
   .multiCell 6 ("Generated on: " ++ fmtDisplay t) "C", .ln 8,
   .setTextColor 10 10 30]

/-- All draw instructions of one document (lines 143–183). -/
def docOps (article_text topic : String) (t : DateTime) : List PdfOp :=
  titleBlockOps topic t ++ (wrappedLines article_text).flatMap renderLineOps

/-- `create_pdf_from_article` (lines 115–187): the timestamp
`datetime.now()` is an explicit argument; produces the saved file's
path and the document's draw instructions, or raises (as `Except.error`)
when some rendered text cannot be encoded by the core font. -/
def create_pdf_from_article (article_text topic : String) (t : DateTime) :
    Except String (String × List PdfOp) :=
  let ops := docOps article_text topic t
  if ops.all PdfOp.encodable then .ok (pdfFilepath topic t, ops)
  else .error encodingError

/-- `required_sections` (line 211). -/
def requiredSections : List String :=
  ["Title:", "Introduction:", "Key Concepts:", "Practical Examples:",
   "Further Reading:", "Summary:"]

/-- The skeleton wrapper built when no section label occurs in the
article (lines 212–235). -/
def skeleton (topic article_text : String) : String :=
  String.intercalate "\n"
    ["Title: " ++ pyTitle (pyStrip topic),
     "",
     "Introduction:",
     article_text,
     "",
     "Key Concepts:",
     "- (See above — split into bullets for clarity)",
     "",
     "Practical Examples:",
     "- Example 1: (Please refine)",
     "- Example 2: (Please refine)",
     "",
     "Further Reading:",
     "- (Search current resources on the topic)",
     "",
     "Summary:",
     "- (Brief summary)"]

/-- The article text after the best-effort sectioning step
(lines 211–235). -/
def sectionize (topic article_text : String) : String :=
  if requiredSections.any (fun s => hasSeg s.data article_text.data) then
    article_text
  else skeleton topic article_text

/-- Whether `on_generate` reaches the `create_pdf_from_article` call
(line 239): a non-blank topic and a generation result that is not an
`ERROR:` string. -/
def on_generate_attempts_pdf (outcome : Except String String)
    (topic : String) : Bool :=
  pyStrip topic ≠ "" &&
    !(startsSeg "ERROR:".data (generate_article_from_gemini outcome).data)

/-- `on_generate` (lines 192–244), with the Gemini outcome and the
timestamp as explicit inputs; returns
`(article_text, pdf_file_path)`. -/
def on_generate (outcome : Except String String) (topic : String)
    (t : DateTime) : String × Option String :=
  let tp := pyStrip topic
  if tp = "" then ("Please enter a topic to generate an article.", none)
  else
    let article := generate_article_from_gemini outcome
    if startsSeg "ERROR:".data article.data then (article, none)
    else
      let article := sectionize tp article
      match create_pdf_from_article article tp t with
      | .ok (path, _) => (article, some path)
      | .error e =>
        ("ERROR: Article generated but failed to create PDF: " ++ e ++
          "\n\nArticle content below:\n\n" ++ article, none)

end App

/-! ## `main.py` -/

namespace MainPy

/-- `ArticleGenerator.format_article` (lines 48–73): wrap the stripped
model output in the fixed markdown template. -/
def format_article (article topic : String) : String :=
  "# " ++ pyTitle topic ++ "\n\n## Introduction\n\n" ++ pyStrip article ++
    "\n\n## Key Points\n\nThis article covers the essential aspects of " ++
    topic ++
    ", providing readers with a comprehensive understanding of the subject matter.\n\n## Further Reading\n\nFor more information on " ++
    topic ++
    ", consider exploring academic journals, reputable online resources, and educational materials from established institutions.\n\n## Conclusion\n\nUnderstanding " ++
    topic ++
    " is valuable for educational and practical purposes. This overview provides a foundation for further exploration of the subject.\n"

/-- `ArticleGenerator.generate_article` (lines 18–46): the T5 output is
external input `raw`; the function post-processes it through
`format_article`. -/
def generate_article (raw topic : String) : String := format_article raw topic

/-- `line.encode('latin-1', 'replace').decode('latin-1')` (line 114):
characters above U+00FF become `?`. -/
def latin1Replace (s : String) : String :=
  ⟨s.data.map (fun c => if latin1Char c then c else '?')⟩

/-- `str.split(' ')`: split at each single space, keeping empty
fields. -/
def splitSpacesGo : Nat → List Char → List Char → List (List Char)
  | 0, acc, l => [acc.reverse ++ l]
  | _ + 1, acc, [] => [acc.reverse]
  | fuel + 1, acc, c :: rest =>
    if c = ' ' then acc.reverse :: splitSpacesGo fuel [] rest
    else splitSpacesGo fuel (c :: acc) rest

/-- `str.split(' ')`. -/
def splitSpaces (s : String) : List String :=
  (splitSpacesGo (s.data.length + 1) [] s.data).map String.mk

/-- The greedy 80-column fill of `create_pdf` (lines 119–131): build
`current_line` word by word, emitting the stripped line whenever the
next word would reach 80 characters. -/
def mainFillGo : List String → String → List String → List String
  | [], cur, acc => if cur = "" then acc.reverse else (pyStrip cur :: acc).reverse
  | w :: ws, cur, acc =>
    if (cur ++ w).length < 80 then mainFillGo ws (cur ++ w ++ " ") acc
    else if cur = "" then mainFillGo ws (w ++ " ") acc
    else mainFillGo ws (w ++ " ") (pyStrip cur :: acc)

/-- The emitted text lines for one regular content line. -/
def mainWrap (line : String) : List String := mainFillGo (splitSpaces line) "" []

/-- Draw instructions for one content line of `create_pdf`
(lines 97–133): markdown headers go through unsanitised, regular lines
are latin-1-sanitised and greedily filled, blank lines emit spacing. -/
def contentLineOps (line : String) : List PdfOp :=
  if startsSeg "# ".data line.data then
    [.setFont "Arial" "B" 14, .cellText 8 ⟨line.data.drop 2⟩ "", .ln 3,
     .setFont "Arial" "" 11]
  else if startsSeg "## ".data line.data then
    [.setFont "Arial" "B" 12, .cellText 7 ⟨line.data.drop 3⟩ "", .ln 2,
     .setFont "Arial" "" 11]
  else if pyStrip line ≠ "" then
    (mainWrap (latin1Replace line)).map (fun l => .cellText 6 l "")
  else [.ln 3]

/-- `str.split('\n')` (line 95). -/
def splitNlGo : Nat → List Char → List Char → List (List Char)
  | 0, acc, l => [acc.reverse ++ l]
  | _ + 1, acc, [] => [acc.reverse]
  | fuel + 1, acc, c :: rest =>
    if c = '\n' then acc.reverse :: splitNlGo fuel [] rest
    else splitNlGo fuel (c :: acc) rest

/-- `content.split('\n')`. -/
def splitNl (s : String) : List String :=
  (splitNlGo (s.data.length + 1) [] s.data).map String.mk

/-- All draw instructions of `PDFGenerator.create_pdf` (lines 80–133). -/
def docOps (title content : String) : List PdfOp :=
  [.addPage, .setFont "Arial" "" 12, .setFont "Arial" "B" 16,
   .cellText 10 title "C", .ln 10, .setFont "Arial" "" 11] ++
    (splitNl content).flatMap contentLineOps

/-- The produced file name `f"article_{timestamp}.pdf"` (line 137). -/
def pdfFilename (t : DateTime) : String :=
  "article_" ++ fmtCompact t ++ ".pdf"

/-- `PDFGenerator.create_pdf` (lines 80–142), timestamp explicit:
returns the saved file's name and the draw instructions, or raises when
some cell text cannot be encoded by the core latin-1 font. -/
def create_pdf (title content : String) (t : DateTime) :
    Except String (String × List PdfOp) :=
  let ops := docOps title content
  if ops.all PdfOp.encodable then .ok (pdfFilename t, ops)
  else .error encodingError

/-- `generate_and_create_pdf` (lines 149–170), with the raw model
output and the timestamp as explicit inputs; returns
`(article_or_error, pdf_filename)`. -/
def generate_and_create_pdf (raw topic : String) (t : DateTime) :
    String × Option String :=
  if pyStrip topic = "" then
    ("Please enter a topic to generate an article.", none)
  else
    let article := generate_article raw topic
    match create_pdf (pyTitle topic) article t with
    | .ok (fn, _) => (article, some fn)
    | .error e => ("Error generating article: " ++ e, none)

end MainPy

/-! ## Notions used to state the claims -/

/-- The non-whitespace characters of a character list, in order. -/
def nonWs (l : List Char) : List Char := l.filter (fun c => !pyWs c)

/-- The characters of a list of emitted lines, concatenated — the
lines' text content with the (wrap-induced or original) line breaks
ignored. -/
def linesChars (ls : List String) : List Char := cat (ls.map String.data)

/-- Modelled from the spec's words (claim C1): the body's character
content after losing "nothing except trailing whitespace trimmed from
each line". -/
def specTrailTrimmed (body : String) : List Char :=
  cat ((pySplitlines body).map (fun l => rstripL l.data))

/-- Modelled from the spec's words (claim C2): display "with only the
trailing colon removed". -/
def specDropOneColon (s : String) : String :=
  if endsWithColon s then ⟨s.data.dropLast⟩ else s

/-- The draw instructions `app.py` emits before the
generation-timestamp subtitle (independent of the timestamp). -/
def appOpsBeforeStamp (topic : String) : List PdfOp :=
  [.addPage,
   .setFont "Helvetica" "B" 20, .setTextColor 40 40 80,
   .multiCell 10 (App.displayTitle topic) "C", .ln 4,
   .setFont "Helvetica" "" 10, .setTextColor 90 90 110]

/-- The draw instructions `app.py` emits after the generation-timestamp
subtitle (independent of the timestamp). -/
def appOpsAfterStamp (article_text : String) : List PdfOp :=
  [.ln 8, .setTextColor 10 10 30] ++
    (App.wrappedLines article_text).flatMap App.renderLineOps

/-- Fuelled worker computing the maximal non-whitespace runs of a line
(its "words" in the sense relevant to wrapping). -/
def twTokensGo : Nat → List Char → List (List Char)
  | 0, l => if l.isEmpty then [] else [l]
  | _ + 1, [] => []
  | fuel + 1, c :: rest =>
    if twWs c then twTokensGo fuel (rest.dropWhile twWs)
    else
      (c :: rest.takeWhile (fun d => !twWs d)) ::
        twTokensGo fuel (rest.dropWhile (fun d => !twWs d))

/-- The words (maximal non-whitespace runs) of a line. -/
def twTokens (l : List Char) : List (List Char) := twTokensGo (l.length + 1) l

/-- ASCII characters outside the C1 control block 0x1c–0x1f: on these
the Python and `textwrap` whitespace notions coincide. -/
def plainChar (c : Char) : Bool :=
  c.val.toNat < 128 && !(28 ≤ c.val.toNat && c.val.toNat ≤ 31)

/-! ## Basic lemmas -/

theorem cat_nil : cat [] = [] := rfl

theorem cat_cons (a : List Char) (t : List (List Char)) :
    cat (a :: t) = a ++ cat t := rfl

theorem cat_append (l₁ l₂ : List (List Char)) :
    cat (l₁ ++ l₂) = cat l₁ ++ cat l₂ := by
  induction l₁ with
  | nil => rfl
  | cons a t ih => simp [cat_cons, ih, List.append_assoc]

theorem startsSeg_append (p r : List Char) : startsSeg p (p ++ r) = true := by
  induction p with
  | nil => rfl
  | cons a as ih => simp [startsSeg, ih]

theorem hasSeg_of_decomp (p a b l : List Char) (h : l = a ++ p ++ b) :
    hasSeg p l = true := by
  subst h
  induction a with
  | nil =>
    cases p with
    | nil => cases b <;> simp [hasSeg, startsSeg]
    | cons c cs =>
      have := startsSeg_append (c :: cs) b
      simp only [List.nil_append]
      simp [hasSeg, List.cons_append] at this ⊢
      exact Or.inl this
  | cons x xs ih =>
    simp only [List.cons_append]
    simp only [hasSeg, Bool.or_eq_true]
    right
    simpa [List.append_assoc] using ih

theorem hasSeg_cat_of_mem (p : List Char) (ls : List (List Char))
    (h : p ∈ ls) : hasSeg p (cat ls) = true := by
  obtain ⟨s, t, rfl⟩ := List.append_of_mem h
  refine hasSeg_of_decomp p (cat s) (cat t) _ ?_
  rw [cat_append, cat_cons, List.append_assoc]

theorem string_data_append (a b : String) : (a ++ b).data = a.data ++ b.data := rfl

theorem string_eq_of_data (a b : String) (h : a.data = b.data) : a = b := by
  cases a; cases b; simp_all

/-- Characters of `lstripL` come from the input. -/
theorem mem_of_mem_lstripL (l : List Char) (c : Char) (h : c ∈ lstripL l) :
    c ∈ l := (List.dropWhile_suffix pyWs).subset h

/-- Characters of `rstripL` come from the input. -/
theorem mem_of_mem_rstripL (l : List Char) (c : Char) (h : c ∈ rstripL l) :
    c ∈ l := by
  unfold rstripL at h
  rw [List.mem_reverse] at h
  have := (List.dropWhile_suffix pyWs).subset h
  simpa using this

/-- Characters of `stripL` come from the input. -/
theorem mem_of_mem_stripL (l : List Char) (c : Char) (h : c ∈ stripL l) :
    c ∈ l :=
  mem_of_mem_lstripL l c (mem_of_mem_rstripL (lstripL l) c h)

/-! ## Character and cleanliness lemmas -/

theorem latin1_digitChar (d : Nat) : latin1Char (digitChar d) = true := by
  unfold digitChar
  split <;> decide

theorem latin1_natDigitsGo (fuel n : Nat) :
    (natDigitsGo fuel n).all latin1Char = true := by
  induction fuel generalizing n with
  | zero => rfl
  | succ fuel ih =>
    unfold natDigitsGo
    split
    · simp [latin1_digitChar]
    · simp [List.all_append, ih, latin1_digitChar]

theorem latin1_natDigits (n : Nat) : (natDigits n).all latin1Char = true :=
  latin1_natDigitsGo _ _

theorem string_data_mk (l : List Char) : (String.mk l).data = l := rfl

theorem latin1_padNum (w n : Nat) : (padNum w n).all latin1Char = true := by
  unfold padNum
  rw [List.all_append, Bool.and_eq_true]
  refine ⟨?_, latin1_natDigits n⟩
  rw [List.all_eq_true]
  intro c hc
  rw [List.eq_of_mem_replicate hc]
  decide

theorem latin1_monthName (m : Nat) :
    (monthName m).data.all latin1Char = true := by
  unfold monthName
  rw [List.getD_eq_getElem?_getD]
  cases h : (["January", "February", "March", "April", "May", "June", "July",
      "August", "September", "October", "November", "December"])[m - 1]? with
  | none => simp
  | some s =>
    have hs : s ∈ ["January", "February", "March", "April", "May", "June",
        "July", "August", "September", "October", "November", "December"] :=
      List.getElem?_mem h
    have hall : ∀ x ∈ ["January", "February", "March", "April", "May", "June",
        "July", "August", "September", "October", "November", "December"],
        x.data.all latin1Char = true := by decide
    simp [hall s hs]

theorem latin1_fmtDisplay (t : DateTime) :
    (fmtDisplay t).data.all latin1Char = true := by
  unfold fmtDisplay
  simp only [string_data_append, string_data_mk, List.all_append,
    Bool.and_eq_true]
  refine ⟨⟨⟨⟨⟨⟨⟨⟨⟨⟨?_, ?_⟩, ?_⟩, ?_⟩, ?_⟩, ?_⟩, ?_⟩, ?_⟩, ?_⟩, ?_⟩, ?_⟩ <;>
    first
      | exact latin1_monthName t.month
      | exact latin1_padNum 2 _
      | exact latin1_natDigits _
      | decide

theorem latin1_fmtCompact (t : DateTime) :
    (fmtCompact t).data.all latin1Char = true := by
  unfold fmtCompact
  simp only [string_data_mk, List.all_append, Bool.and_eq_true]
  refine ⟨⟨⟨⟨⟨⟨?_, ?_⟩, ?_⟩, ?_⟩, ?_⟩, ?_⟩, ?_⟩ <;>
    first
      | exact latin1_padNum _ _
      | decide

/-! ## Whitespace-stripping lemmas -/

theorem nonWs_dropWhile (l : List Char) :
    nonWs (l.dropWhile pyWs) = nonWs l := by
  induction l with
  | nil => rfl
  | cons c t ih =>
    by_cases h : pyWs c
    · simpa [List.dropWhile_cons, h, nonWs, List.filter_cons] using ih
    · simp [List.dropWhile_cons, h, nonWs, List.filter_cons]

theorem nonWs_reverse (l : List Char) : nonWs l.reverse = (nonWs l).reverse := by
  simp [nonWs, List.filter_reverse]

theorem nonWs_lstripL (l : List Char) : nonWs (lstripL l) = nonWs l :=
  nonWs_dropWhile l

theorem nonWs_rstripL (l : List Char) : nonWs (rstripL l) = nonWs l := by
  unfold rstripL
  rw [nonWs_reverse, nonWs_dropWhile, nonWs_reverse, List.reverse_reverse]

theorem nonWs_stripL (l : List Char) : nonWs (stripL l) = nonWs l := by
  unfold stripL
  rw [nonWs_rstripL, nonWs_lstripL]

theorem stripL_ne_nil (l : List Char) (c : Char) (hc : c ∈ l)
    (hw : pyWs c = false) : stripL l ≠ [] := by
  intro h
  have h1 : nonWs l = [] := by rw [← nonWs_stripL, h]; rfl
  have h2 : c ∈ nonWs l := by
    simp [nonWs, List.mem_filter, hc, hw]
  rw [h1] at h2
  exact absurd h2 (List.not_mem_nil c)

theorem pyStrip_ne_empty (s : String) (c : Char) (hc : c ∈ s.data)
    (hw : pyWs c = false) : pyStrip s ≠ "" := by
  intro h
  have : stripL s.data = [] := congrArg String.data h
  exact stripL_ne_nil s.data c hc hw this

theorem startsSeg_exists (p l : List Char) (h : startsSeg p l = true) :
    ∃ r, l = p ++ r := by
  induction p generalizing l with
  | nil => exact ⟨l, rfl⟩
  | cons a as ih =>
    cases l with
    | nil => simp [startsSeg] at h
    | cons b bs =>
      simp only [startsSeg, Bool.and_eq_true, decide_eq_true_eq] at h
      obtain ⟨r, hr⟩ := ih bs h.2
      exact ⟨r, by simp [h.1, hr]⟩

/-! ## Claim C10 -/

/-- Claim C10: at render time the heading test is applied before the
bullet test, so every line that starts with a bullet marker (`- `,
`• `, `* `) and ends with `:` is rendered as a heading — its display
text is the line with all trailing colons stripped (and the surrounding
whitespace trimmed, as `rstrip(":").strip()` does) — and never with the
bullet indent. -/
theorem c10_heading_before_bullet (line : String)
    (hb : App.renderBullet line = true) (hc : endsWithColon line = true) :
    App.renderLineOps line =
      [.setFont "Helvetica" "B" 14, .setTextColor 40 40 80,
       .multiCell 8 (App.headingText line) "", .ln 2,
       .setFont "Helvetica" "" 11, .setTextColor 10 10 30] ∧
    App.headingText line = pyStrip (pyRStripColons line) ∧
    PdfOp.cellIndent 8 ∉ App.renderLineOps line := by
  have hne : pyStrip line ≠ "" := by
    simp only [App.renderBullet, Bool.or_eq_true] at hb
    rcases hb with (h | h) | h
    · obtain ⟨r, hr⟩ := startsSeg_exists _ _ h
      exact pyStrip_ne_empty line '-'
        (by rw [hr]; exact List.mem_cons_self _ _) (by decide)
    · obtain ⟨r, hr⟩ := startsSeg_exists _ _ h
      exact pyStrip_ne_empty line '•'
        (by rw [hr]; exact List.mem_cons_self _ _) (by decide)
    · obtain ⟨r, hr⟩ := startsSeg_exists _ _ h
      exact pyStrip_ne_empty line '*'
        (by rw [hr]; exact List.mem_cons_self _ _) (by decide)
  have hh : App.renderHeading line = true := by
    simp [App.renderHeading, hc]
  have hops : App.renderLineOps line =
      [.setFont "Helvetica" "B" 14, .setTextColor 40 40 80,
       .multiCell 8 (App.headingText line) "", .ln 2,
       .setFont "Helvetica" "" 11, .setTextColor 10 10 30] := by
    unfold App.renderLineOps
    rw [if_neg hne, if_pos hh]
  refine ⟨hops, rfl, ?_⟩
  rw [hops]
  simp

/-- Witness for C10 at the concrete line `"- Note:"`. -/
theorem c10_heading_before_bullet_witness :
    App.renderBullet "- Note:" = true ∧ endsWithColon "- Note:" = true ∧
    (App.renderLineOps "- Note:" =
      [.setFont "Helvetica" "B" 14, .setTextColor 40 40 80,
       .multiCell 8 (App.headingText "- Note:") "", .ln 2,
       .setFont "Helvetica" "" 11, .setTextColor 10 10 30] ∧
    App.headingText "- Note:" = pyStrip (pyRStripColons "- Note:") ∧
    PdfOp.cellIndent 8 ∉ App.renderLineOps "- Note:") :=
  ⟨by decide, by decide,
    c10_heading_before_bullet "- Note:" (by decide) (by decide)⟩

/-! ## Claim C2 -/

/-- Claim C2, counterexample to "with only the trailing colon removed
for display": the line `"A::"` is a wrap-stage heading that passes
through as-is, but its display removes *both* trailing colons
(`rstrip(":")`), not only the one. -/
theorem c2_counterexample :
    App.wrapStageHeading (pyStrip "A::") = true ∧
    App.processLine "A::" = ["A::"] ∧
    App.headingText "A::" = "A" ∧
    specDropOneColon "A::" = "A:" ∧
    App.headingText "A::" ≠ specDropOneColon "A::" := by
  refine ⟨by decide, by decide, by decide, by decide, by decide⟩

/-- Claim C2 (amended): the wrap pass treats a non-blank line as a
heading exactly when its stripped content ends with `:` or equals its
own uppercasing with at most 6 words; such lines are never word-wrapped
and pass through as the stripped content; and a colon-terminated
heading is displayed with *all* trailing colons (and the whitespace
around the remainder) removed, as `rstrip(":").strip()` does. -/
theorem c2_heading_pass (line : String) (hne : pyStrip line ≠ "") :
    (App.wrapStageHeading (pyStrip line) = true ↔
      (endsWithColon (pyStrip line) = true ∨
        (pyStrip line = pyUpper (pyStrip line) ∧
          (pySplitWs (pyStrip line)).length ≤ 6))) ∧
    (App.wrapStageHeading (pyStrip line) = true →
      App.processLine line = [pyStrip line]) ∧
    (endsWithColon (pyStrip line) = true →
      App.renderHeading (pyStrip line) = true ∧
      App.headingText (pyStrip line) =
        pyStrip (pyRStripColons (pyStrip line))) := by
  refine ⟨?_, ?_, ?_⟩
  · simp [App.wrapStageHeading, Bool.or_eq_true, Bool.and_eq_true,
      beq_iff_eq, decide_eq_true_eq]
  · intro h
    unfold App.processLine
    rw [if_neg hne, if_pos h]
  · intro h
    exact ⟨by simp [App.renderHeading, h], rfl⟩

/-- Witness for C2 at the concrete line `"Key Concepts:"`. -/
theorem c2_heading_pass_witness :
    pyStrip "Key Concepts:" ≠ "" ∧
    ((App.wrapStageHeading (pyStrip "Key Concepts:") = true ↔
      (endsWithColon (pyStrip "Key Concepts:") = true ∨
        (pyStrip "Key Concepts:" = pyUpper (pyStrip "Key Concepts:") ∧
          (pySplitWs (pyStrip "Key Concepts:")).length ≤ 6))) ∧
    (App.wrapStageHeading (pyStrip "Key Concepts:") = true →
      App.processLine "Key Concepts:" = [pyStrip "Key Concepts:"]) ∧
    (endsWithColon (pyStrip "Key Concepts:") = true →
      App.renderHeading (pyStrip "Key Concepts:") = true ∧
      App.headingText (pyStrip "Key Concepts:") =
        pyStrip (pyRStripColons (pyStrip "Key Concepts:")))) :=
  ⟨by decide, c2_heading_pass "Key Concepts:" (by decide)⟩

/-- Cancel a common prefix and suffix of a string equation. -/
theorem append_affix_inj (a c x y : String) (h : a ++ x ++ c = a ++ y ++ c) :
    x = y := by
  have hd := congrArg String.data h
  simp only [string_data_append] at hd
  rw [List.append_assoc, List.append_assoc] at hd
  have h2 := List.append_cancel_left hd
  exact string_eq_of_data _ _ (List.append_cancel_right h2)

/-! ## Claim C8 -/

/-- Claim C8, counterexample: `main.py` names its output
`article_<timestamp>.pdf` with no sanitized-topic (or default) segment
at all — for the title `"Cats"` the produced name is neither
`article_Cats_<timestamp>.pdf` nor `article_topic_<timestamp>.pdf`. -/
theorem c8_counterexample :
    MainPy.create_pdf "Cats" "x" ⟨2025, 1, 1, 12, 0, 0⟩ =
      .ok ("article_20250101_120000.pdf",
        MainPy.docOps "Cats" "x") ∧
    "article_20250101_120000.pdf" ≠
      "article_Cats_20250101_120000.pdf" ∧
    "article_20250101_120000.pdf" ≠
      "article_topic_20250101_120000.pdf" := by
  refine ⟨rfl, by decide, by decide⟩

/-- Claim C8 (amended): `app.py` names its artifact
`article_<sanitized-topic-or-default>_<timestamp>.pdf` (timestamp
`YYYYMMDD_HHMMSS`), where the topic is sanitized by keeping only
alphanumerics, spaces, hyphens and underscores, *stripping surrounding
whitespace*, and truncating to 40 characters, with default `topic` when
the result is empty; `main.py` instead names its artifact
`article_<timestamp>.pdf`, with no topic segment. -/
theorem c8_filename_format (topic : String) (t : DateTime) :
    App.pdfFilepath topic t =
      "outputs/" ++ ("article_" ++
        (if App.safeTopic topic = "" then "topic" else App.safeTopic topic) ++
        "_" ++ fmtCompact t ++ ".pdf") ∧
    App.safeTopic topic =
      ⟨(stripL (topic.data.filter
          (fun c => c.isAlphanum || c = ' ' || c = '-' || c = '_'))).take 40⟩ ∧
    MainPy.pdfFilename t = "article_" ++ fmtCompact t ++ ".pdf" :=
  ⟨rfl, rfl, rfl⟩

/-! ## Claim C7 -/

/-- Claim C7, counterexample to "byte-for-byte identical page content":
two calls with identical `(title, body)` at timestamps one second apart
produce distinct filenames, but the emitted draw instructions also
differ — the `Generated on:` subtitle renders the timestamp into the
page. -/
theorem c7_counterexample :
    App.create_pdf_from_article "hi" "Cats" ⟨2025, 1, 1, 12, 0, 0⟩ =
      .ok ("outputs/article_Cats_20250101_120000.pdf",
        App.docOps "hi" "Cats" ⟨2025, 1, 1, 12, 0, 0⟩) ∧
    App.create_pdf_from_article "hi" "Cats" ⟨2025, 1, 1, 12, 0, 1⟩ =
      .ok ("outputs/article_Cats_20250101_120001.pdf",
        App.docOps "hi" "Cats" ⟨2025, 1, 1, 12, 0, 1⟩) ∧
    App.docOps "hi" "Cats" ⟨2025, 1, 1, 12, 0, 0⟩ ≠
      App.docOps "hi" "Cats" ⟨2025, 1, 1, 12, 0, 1⟩ := by
  refine ⟨rfl, rfl, by decide⟩

/-- Claim C7 (amended): two invocations with identical `(title, body)`
and distinct timestamps produce distinct filenames, and their page
content is identical except for the generation-timestamp subtitle: all
draw instructions before and after that one `multi_cell` agree. -/
theorem c7_distinct_names_same_content (article_text topic : String)
    (t₁ t₂ : DateTime) (h : fmtCompact t₁ ≠ fmtCompact t₂) :
    App.pdfFilename topic t₁ ≠ App.pdfFilename topic t₂ ∧
    App.docOps article_text topic t₁ =
      appOpsBeforeStamp topic ++
        [.multiCell 6 ("Generated on: " ++ fmtDisplay t₁) "C"] ++
        appOpsAfterStamp article_text ∧
    App.docOps article_text topic t₂ =
      appOpsBeforeStamp topic ++
        [.multiCell 6 ("Generated on: " ++ fmtDisplay t₂) "C"] ++
        appOpsAfterStamp article_text := by
  refine ⟨?_, rfl, rfl⟩
  intro he
  unfold App.pdfFilename at he
  exact h (append_affix_inj _ _ _ _ he)

/-- Witness for C7 at two concrete timestamps. -/
theorem c7_distinct_names_same_content_witness :
    fmtCompact ⟨2025, 1, 1, 12, 0, 0⟩ ≠ fmtCompact ⟨2025, 1, 1, 12, 0, 1⟩ ∧
    (App.pdfFilename "Cats" ⟨2025, 1, 1, 12, 0, 0⟩ ≠
      App.pdfFilename "Cats" ⟨2025, 1, 1, 12, 0, 1⟩ ∧
    App.docOps "hi" "Cats" ⟨2025, 1, 1, 12, 0, 0⟩ =
      appOpsBeforeStamp "Cats" ++
        [.multiCell 6 ("Generated on: " ++ fmtDisplay ⟨2025, 1, 1, 12, 0, 0⟩) "C"] ++
        appOpsAfterStamp "hi" ∧
    App.docOps "hi" "Cats" ⟨2025, 1, 1, 12, 0, 1⟩ =
      appOpsBeforeStamp "Cats" ++
        [.multiCell 6 ("Generated on: " ++ fmtDisplay ⟨2025, 1, 1, 12, 0, 1⟩) "C"] ++
        appOpsAfterStamp "hi") :=
  ⟨by decide,
    c7_distinct_names_same_content "hi" "Cats" _ _ (by decide)⟩

/-! ## Claim C9 -/

theorem all_latin1_pyStrip (s : String) (h : s.data.all latin1Char = true) :
    (pyStrip s).data.all latin1Char = true := by
  rw [List.all_eq_true] at h ⊢
  intro c hc
  exact h c (mem_of_mem_stripL s.data c hc)

theorem displayTitle_latin1 (topic : String)
    (h : topic.data.all latin1Char = true) :
    (App.displayTitle topic).data.all latin1Char = true := by
  unfold App.displayTitle
  split
  · decide
  · exact all_latin1_pyStrip topic h

theorem titleBlockOps_encodable (topic : String) (t : DateTime)
    (h : topic.data.all latin1Char = true) :
    (App.titleBlockOps topic t).all PdfOp.encodable = true := by
  unfold App.titleBlockOps
  simp only [List.all_cons, PdfOp.encodable, List.all_nil, Bool.and_eq_true,
    Bool.and_true, string_data_append, List.all_append]
  and_intros <;>
    first
      | trivial
      | exact displayTitle_latin1 topic h
      | exact latin1_fmtDisplay t

/-- Claim C9, counterexample to "PDF creation does not raise ... the
result is never a missing file": even with the empty body, a topic the
latin-1 core font cannot encode makes the title `multi_cell` raise, so
no file is produced. -/
theorem c9_counterexample :
    App.create_pdf_from_article "" "😀" ⟨2025, 1, 1, 12, 0, 0⟩ =
      .error encodingError := rfl

/-- Claim C9 (amended): for the empty body string and any topic whose
characters the latin-1 core font can encode, PDF creation does not
raise; it returns the file path and a document consisting of exactly
the title block (title and generation-timestamp subtitle) with no body
instructions.  (With a non-encodable topic the title cell raises even
for the empty body — see the counterexample.) -/
theorem c9_empty_body (topic : String) (t : DateTime)
    (h : topic.data.all latin1Char = true) :
    App.create_pdf_from_article "" topic t =
      .ok (App.pdfFilepath topic t, App.titleBlockOps topic t) ∧
    App.wrappedLines "" = [] := by
  have hdoc : App.docOps "" topic t = App.titleBlockOps topic t := by
    unfold App.docOps App.wrappedLines
    simp [pySplitlines, splitlinesL, splitlinesGo]
  refine ⟨?_, rfl⟩
  unfold App.create_pdf_from_article
  rw [hdoc, if_pos (titleBlockOps_encodable topic t h)]

/-- Witness for C9 at the concrete topic `"Cats"`. -/
theorem c9_empty_body_witness :
    ("Cats" : String).data.all latin1Char = true ∧
    (App.create_pdf_from_article "" "Cats" ⟨2025, 1, 1, 12, 0, 0⟩ =
      .ok (App.pdfFilepath "Cats" ⟨2025, 1, 1, 12, 0, 0⟩,
        App.titleBlockOps "Cats" ⟨2025, 1, 1, 12, 0, 0⟩) ∧
    App.wrappedLines "" = []) :=
  ⟨by decide, c9_empty_body "Cats" ⟨2025, 1, 1, 12, 0, 0⟩ (by decide)⟩

/-! ## Claim C6 -/

/-- Claim C6, counterexample to "empty result ⇒ error-prefixed string
and no PDF creation attempted": an empty (successful) generation result
is not an `ERROR:` string, so `on_generate` proceeds past the guard and
does invoke PDF creation (on the heuristic skeleton article). -/
theorem c6_counterexample :
    App.generate_article_from_gemini (.ok "") = "" ∧
    App.on_generate_attempts_pdf (.ok "") "Cats" = true := by
  exact ⟨rfl, by decide⟩

/-- Claim C6 (amended): only when the upstream step *errors* (its
result is an `ERROR:`-prefixed string) does the caller receive that
string with no file and no PDF-creation attempt; an empty-but-
successful result instead flows on to the sectioning heuristic and PDF
creation is attempted. -/
theorem c6_error_skips_pdf (outcome : Except String String) (topic : String)
    (t : DateTime) (hne : pyStrip topic ≠ "") :
    (startsSeg "ERROR:".data
        (App.generate_article_from_gemini outcome).data = true →
      App.on_generate outcome topic t =
        (App.generate_article_from_gemini outcome, none) ∧
      App.on_generate_attempts_pdf outcome topic = false) ∧
    (startsSeg "ERROR:".data
        (App.generate_article_from_gemini outcome).data = false →
      App.on_generate_attempts_pdf outcome topic = true) := by
  constructor
  · intro h
    constructor
    · unfold App.on_generate
      rw [if_neg hne, if_pos h]
    · simp [App.on_generate_attempts_pdf, h]
  · intro h
    simp [App.on_generate_attempts_pdf, h, hne]

/-- Witness for C6 with a concrete failing generation outcome. -/
theorem c6_error_skips_pdf_witness :
    pyStrip "Cats" ≠ "" ∧
    ((startsSeg "ERROR:".data
        (App.generate_article_from_gemini (.error "boom")).data = true →
      App.on_generate (.error "boom") "Cats" ⟨2025, 1, 1, 12, 0, 0⟩ =
        (App.generate_article_from_gemini (.error "boom"), none) ∧
      App.on_generate_attempts_pdf (.error "boom") "Cats" = false) ∧
    (startsSeg "ERROR:".data
        (App.generate_article_from_gemini (.error "boom")).data = false →
      App.on_generate_attempts_pdf (.error "boom") "Cats" = true)) :=
  ⟨by decide, c6_error_skips_pdf (.error "boom") "Cats" _ (by decide)⟩

/-! ## Claim C5 -/

/-- Claim C5, counterexample: in `main.py`, when article generation
succeeds but PDF creation throws (here: the title `"A😀"` cannot be
encoded), the caller receives the bare error string — the generated
article text is *not* returned. -/
theorem c5_counterexample :
    MainPy.create_pdf (pyTitle "a😀")
        (MainPy.generate_article "hello" "a😀") ⟨2025, 1, 1, 12, 0, 0⟩ =
      .error encodingError ∧
    (MainPy.generate_and_create_pdf "hello" "a😀" ⟨2025, 1, 1, 12, 0, 0⟩).2 =
      none ∧
    hasSeg "hello".data
      (MainPy.generate_and_create_pdf "hello" "a😀"
        ⟨2025, 1, 1, 12, 0, 0⟩).1.data = false := by
  refine ⟨rfl, rfl, ?_⟩
  decide

/-- Claim C5 (amended): in `app.py`, whenever generation succeeds (no
`ERROR:` result) and PDF creation throws, the caller receives a `none`
file reference together with the article text augmented by an
explanatory error message — the article text is contained in the
returned text.  (`main.py` instead drops the article text in this
case; see the counterexample.) -/
theorem c5_degraded_success_app (outcome : Except String String)
    (topic : String) (t : DateTime) (e : String)
    (hne : pyStrip topic ≠ "")
    (herr : startsSeg "ERROR:".data
        (App.generate_article_from_gemini outcome).data = false)
    (hfail : App.create_pdf_from_article
        (App.sectionize (pyStrip topic)
          (App.generate_article_from_gemini outcome))
        (pyStrip topic) t = .error e) :
    App.on_generate outcome topic t =
      ("ERROR: Article generated but failed to create PDF: " ++ e ++
        "\n\nArticle content below:\n\n" ++
        App.sectionize (pyStrip topic)
          (App.generate_article_from_gemini outcome),
       none) ∧
    hasSeg (App.sectionize (pyStrip topic)
        (App.generate_article_from_gemini outcome)).data
      (App.on_generate outcome topic t).1.data = true := by
  have h1 : App.on_generate outcome topic t =
      ("ERROR: Article generated but failed to create PDF: " ++ e ++
        "\n\nArticle content below:\n\n" ++
        App.sectionize (pyStrip topic)
          (App.generate_article_from_gemini outcome),
       none) := by
    unfold App.on_generate
    rw [if_neg hne, if_neg (by simp [herr])]
    simp only [hfail]
  refine ⟨h1, ?_⟩
  rw [h1]
  refine hasSeg_of_decomp _
    ("ERROR: Article generated but failed to create PDF: " ++ e ++
      "\n\nArticle content below:\n\n").data [] _ ?_
  simp [string_data_append]

/-- Witness for C5: a body whose emoji makes `app.py`'s PDF creation
raise, while generation succeeded. -/
theorem c5_degraded_success_app_witness :
    pyStrip "Cats" ≠ "" ∧
    startsSeg "ERROR:".data
      (App.generate_article_from_gemini (.ok "Title: X\n😀")).data = false ∧
    App.create_pdf_from_article
      (App.sectionize (pyStrip "Cats")
        (App.generate_article_from_gemini (.ok "Title: X\n😀")))
      (pyStrip "Cats") ⟨2025, 1, 1, 12, 0, 0⟩ = .error encodingError ∧
    (App.on_generate (.ok "Title: X\n😀") "Cats" ⟨2025, 1, 1, 12, 0, 0⟩ =
      ("ERROR: Article generated but failed to create PDF: " ++
        encodingError ++ "\n\nArticle content below:\n\n" ++
        App.sectionize (pyStrip "Cats")
          (App.generate_article_from_gemini (.ok "Title: X\n😀")),
       none) ∧
    hasSeg (App.sectionize (pyStrip "Cats")
        (App.generate_article_from_gemini (.ok "Title: X\n😀"))).data
      (App.on_generate (.ok "Title: X\n😀") "Cats"
        ⟨2025, 1, 1, 12, 0, 0⟩).1.data = true) :=
  ⟨by decide, by decide, rfl,
    c5_degraded_success_app (.ok "Title: X\n😀") "Cats" _ encodingError
      (by decide) (by decide) rfl⟩

/-! ## Claim C4 -/

/-- Claim C4, counterexample: in `app.py` there is no per-character
substitution at all — a body consisting of one emoji makes
`create_pdf_from_article` raise instead of completing with a
replacement character. -/
theorem c4_counterexample :
    App.create_pdf_from_article "😀" "Cats" ⟨2025, 1, 1, 12, 0, 0⟩ =
      .error encodingError := rfl

theorem latin1_latin1Replace (s : String) :
    (MainPy.latin1Replace s).data.all latin1Char = true := by
  unfold MainPy.latin1Replace
  rw [List.all_eq_true]
  intro c hc
  obtain ⟨d, _, rfl⟩ := List.mem_map.mp hc
  by_cases h : latin1Char d = true
  · simp [h]
  · simp only [if_neg h]
    decide

theorem all_latin1_append (a b : String)
    (ha : a.data.all latin1Char = true) (hb : b.data.all latin1Char = true) :
    (a ++ b).data.all latin1Char = true := by
  rw [string_data_append, List.all_append, ha, hb]
  rfl

theorem splitSpacesGo_latin1 (fuel : Nat) (acc l : List Char)
    (hacc : acc.all latin1Char = true) (hl : l.all latin1Char = true) :
    ∀ p ∈ MainPy.splitSpacesGo fuel acc l, p.all latin1Char = true := by
  induction fuel generalizing acc l with
  | zero =>
    intro p hp
    simp only [MainPy.splitSpacesGo, List.mem_singleton] at hp
    subst hp
    rw [List.all_append, List.all_reverse, hacc, hl]
    rfl
  | succ fuel ih =>
    intro p hp
    cases l with
    | nil =>
      simp only [MainPy.splitSpacesGo, List.mem_singleton] at hp
      subst hp
      rw [List.all_reverse]
      exact hacc
    | cons c rest =>
      rw [List.all_cons, Bool.and_eq_true] at hl
      simp only [MainPy.splitSpacesGo] at hp
      by_cases h : c = ' '
      · rw [if_pos h] at hp
        rcases List.mem_cons.mp hp with h1 | h1
        · subst h1
          rw [List.all_reverse]
          exact hacc
        · exact ih [] rest rfl hl.2 p h1
      · rw [if_neg h] at hp
        refine ih (c :: acc) rest ?_ hl.2 p hp
        rw [List.all_cons, Bool.and_eq_true]
        exact ⟨hl.1, hacc⟩

theorem mainFillGo_latin1 (ws : List String) (cur : String)
    (acc : List String)
    (hws : ∀ w ∈ ws, w.data.all latin1Char = true)
    (hcur : cur.data.all latin1Char = true)
    (hacc : ∀ a ∈ acc, a.data.all latin1Char = true) :
    ∀ l ∈ MainPy.mainFillGo ws cur acc, l.data.all latin1Char = true := by
  induction ws generalizing cur acc with
  | nil =>
    intro l hl
    simp only [MainPy.mainFillGo] at hl
    split at hl
    · exact hacc l (List.mem_reverse.mp hl)
    · rw [List.mem_reverse, List.mem_cons] at hl
      rcases hl with h1 | h1
      · subst h1
        exact all_latin1_pyStrip cur hcur
      · exact hacc l h1
  | cons w ws ih =>
    intro l hl
    simp only [MainPy.mainFillGo] at hl
    have hw := hws w (List.mem_cons_self w ws)
    have hws' : ∀ x ∈ ws, x.data.all latin1Char = true := fun x hx =>
      hws x (List.mem_cons_of_mem w hx)
    split at hl
    · refine ih (cur ++ w ++ " ") acc hws' ?_ hacc l hl
      exact all_latin1_append _ _ (all_latin1_append _ _ hcur hw) (by decide)
    · split at hl
      · refine ih (w ++ " ") acc hws' ?_ hacc l hl
        exact all_latin1_append _ _ hw (by decide)
      · refine ih (w ++ " ") (pyStrip cur :: acc) hws'
          (all_latin1_append _ _ hw (by decide)) ?_ l hl
        intro a ha
        rcases List.mem_cons.mp ha with h1 | h1
        · subst h1
          exact all_latin1_pyStrip cur hcur
        · exact hacc a h1

theorem mainWrap_latin1 (s : String) (hs : s.data.all latin1Char = true) :
    ∀ l ∈ MainPy.mainWrap s, l.data.all latin1Char = true := by
  intro l hl
  refine mainFillGo_latin1 (MainPy.splitSpaces s) "" [] ?_ rfl (by simp) l hl
  intro w hw
  unfold MainPy.splitSpaces at hw
  obtain ⟨p, hp, rfl⟩ := List.mem_map.mp hw
  exact splitSpacesGo_latin1 _ [] s.data rfl hs p hp

theorem all_drop_latin1 (l : List Char) (n : Nat)
    (h : l.all latin1Char = true) : (l.drop n).all latin1Char = true := by
  rw [List.all_eq_true] at h ⊢
  intro c hc
  exact h c (List.drop_subset n l hc)

theorem contentLineOps_encodable (line : String)
    (hhdr : (startsSeg "# ".data line.data = true ∨
        startsSeg "## ".data line.data = true) →
      line.data.all latin1Char = true) :
    (MainPy.contentLineOps line).all PdfOp.encodable = true := by
  unfold MainPy.contentLineOps
  by_cases h1 : startsSeg "# ".data line.data = true
  · rw [if_pos h1]
    simp only [List.all_cons, List.all_nil, PdfOp.encodable, Bool.and_eq_true,
      Bool.and_true, string_data_mk]
    and_intros <;> first
      | trivial
      | exact all_drop_latin1 _ _ (hhdr (Or.inl h1))
  · rw [if_neg h1]
    by_cases h2 : startsSeg "## ".data line.data = true
    · rw [if_pos h2]
      simp only [List.all_cons, List.all_nil, PdfOp.encodable,
        Bool.and_eq_true, Bool.and_true, string_data_mk]
      and_intros <;> first
        | trivial
        | exact all_drop_latin1 _ _ (hhdr (Or.inr h2))
    · rw [if_neg h2]
      by_cases h3 : pyStrip line ≠ ""
      · rw [if_pos h3, List.all_eq_true]
        intro op hop
        obtain ⟨l, hl, rfl⟩ := List.mem_map.mp hop
        exact mainWrap_latin1 _ (latin1_latin1Replace line) l hl
      · rw [if_neg h3]
        rfl

/-- Claim C4 (amended): `app.py` performs no substitution — an
unsupported character there makes PDF creation raise (see the
counterexample; `on_generate` then catches it, so the *app* degrades
but the creation operation itself fails).  In `main.py`, regular
content lines are sanitised per character (`encode('latin-1',
'replace')`, unsupported characters becoming `?`), so PDF creation
succeeds with replacement glyphs whenever the title and the markdown
header lines themselves are encodable; the replacement is per-position
(`latin1Replace` maps each unsupported character to `?`). -/
theorem c4_replacement_mainpy (title content : String) (t : DateTime)
    (ht : title.data.all latin1Char = true)
    (hh : ∀ line ∈ MainPy.splitNl content,
      (startsSeg "# ".data line.data = true ∨
        startsSeg "## ".data line.data = true) →
      line.data.all latin1Char = true) :
    MainPy.create_pdf title content t =
      .ok (MainPy.pdfFilename t, MainPy.docOps title content) ∧
    (MainPy.docOps title content).all PdfOp.encodable = true ∧
    (∀ s : String, (MainPy.latin1Replace s).data =
      s.data.map (fun c => if latin1Char c then c else '?')) := by
  have hall : (MainPy.docOps title content).all PdfOp.encodable = true := by
    unfold MainPy.docOps
    rw [List.all_append, Bool.and_eq_true]
    constructor
    · simp only [List.all_cons, List.all_nil, PdfOp.encodable,
        Bool.and_eq_true, Bool.and_true]
      and_intros <;> first | trivial | exact ht
    · rw [List.all_eq_true]
      intro op hop
      obtain ⟨line, hline, hop2⟩ := List.mem_flatMap.mp hop
      have := contentLineOps_encodable line (hh line hline)
      rw [List.all_eq_true] at this
      exact this op hop2
  refine ⟨?_, hall, fun _ => rfl⟩
  unfold MainPy.create_pdf
  rw [if_pos hall]

/-- Witness for C4 (amended) at a concrete emoji-bearing content. -/
theorem c4_replacement_mainpy_witness :
    ("T" : String).data.all latin1Char = true ∧
    (∀ line ∈ MainPy.splitNl "hi 😀",
      (startsSeg "# ".data line.data = true ∨
        startsSeg "## ".data line.data = true) →
      line.data.all latin1Char = true) ∧
    (MainPy.create_pdf "T" "hi 😀" ⟨2025, 1, 1, 12, 0, 0⟩ =
      .ok (MainPy.pdfFilename ⟨2025, 1, 1, 12, 0, 0⟩,
        MainPy.docOps "T" "hi 😀") ∧
    (MainPy.docOps "T" "hi 😀").all PdfOp.encodable = true ∧
    (∀ s : String, (MainPy.latin1Replace s).data =
      s.data.map (fun c => if latin1Char c then c else '?'))) :=
  ⟨by decide, by decide,
    c4_replacement_mainpy "T" "hi 😀" _ (by decide) (by decide)⟩

/-! ## Claim C1: character preservation through the layout pass -/

theorem nonWs_append (a b : List Char) : nonWs (a ++ b) = nonWs a ++ nonWs b := by
  simp [nonWs]

theorem nonWs_of_stripEmpty (l : List Char) (h : stripEmpty l = true) :
    nonWs l = [] := by
  rw [stripEmpty, List.all_eq_true] at h
  unfold nonWs
  rw [List.filter_eq_nil]
  intro a ha
  simp [h a ha]

theorem nonWs_expandTabs (col : Nat) (l : List Char) :
    nonWs (expandTabsGo col l) = nonWs l := by
  induction l generalizing col with
  | nil => rfl
  | cons c rest ih =>
    unfold expandTabsGo
    by_cases h1 : c = '\t'
    · rw [if_pos h1, nonWs_append, ih]
      have hsp : nonWs (List.replicate (8 - col % 8) ' ') = [] := by
        apply nonWs_of_stripEmpty
        rw [stripEmpty, List.all_eq_true]
        intro a ha
        rw [List.eq_of_mem_replicate ha]
        decide
      rw [hsp, List.nil_append]
      subst h1
      show nonWs rest = nonWs ('\t' :: rest)
      unfold nonWs
      rw [List.filter_cons, if_neg (by decide)]
    · rw [if_neg h1]
      by_cases h2 : c = '\n' || c = '\r'
      · rw [if_pos h2]
        simp only [nonWs, List.filter_cons] at ih ⊢
        rw [ih]
      · rw [if_neg h2]
        simp only [nonWs, List.filter_cons] at ih ⊢
        rw [ih]

theorem wordScan_append (rev acc rest : List Char) :
    (wordScan rev acc rest).1 ++ (wordScan rev acc rest).2 =
      acc.reverse ++ rest := by
  induction rest generalizing acc with
  | nil => simp [wordScan]
  | cons c rs ih =>
    unfold wordScan
    split
    · rfl
    · rw [ih (c :: acc)]
      simp

theorem append_drop_of_eq (l t r : List Char) (h : l = t ++ r) :
    t ++ l.drop t.length = l := by
  subst h
  rw [List.drop_left]

theorem takeWhile_append_drop (p : Char → Bool) (l : List Char) :
    l.takeWhile p ++ l.drop (l.takeWhile p).length = l := by
  obtain ⟨r, hr⟩ := List.takeWhile_prefix (l := l) p
  exact append_drop_of_eq l _ r hr.symm

theorem firstChunk_append (rev l : List Char) :
    (firstChunk rev l).1 ++ (firstChunk rev l).2 = l := by
  cases l with
  | nil => rfl
  | cons c rest =>
    simp only [firstChunk]
    by_cases h1 : twWs c = true
    · rw [if_pos h1]
      show c :: (rest.takeWhile twWs ++ rest.dropWhile twWs) = c :: rest
      rw [List.takeWhile_append_dropWhile]
    · rw [if_neg h1]
      by_cases h2 : emDashStandalone rev c rest = true
      · rw [if_pos h2]
        exact takeWhile_append_drop (fun x => decide (x = '-')) (c :: rest)
      · rw [if_neg h2]
        exact wordScan_append rev [c] rest

theorem chunksGo_cat (fuel : Nat) (rev l : List Char) :
    cat (chunksGo fuel rev l) = l := by
  induction fuel generalizing rev l with
  | zero =>
    unfold chunksGo
    split
    · next h => simp_all [cat_nil, List.isEmpty_iff]
    · simp [cat_cons, cat_nil]
  | succ fuel ih =>
    cases l with
    | nil => rfl
    | cons c rest =>
      show cat ((firstChunk rev (c :: rest)).1 ::
        chunksGo fuel _ (firstChunk rev (c :: rest)).2) = c :: rest
      rw [cat_cons, ih]
      exact firstChunk_append rev (c :: rest)

theorem fillGo_append (n : Nat) (cs : List (List Char)) :
    (fillGo n cs).1 ++ (fillGo n cs).2 = cs := by
  induction cs generalizing n with
  | nil => rfl
  | cons ch rest ih =>
    unfold fillGo
    split
    · simp only [List.cons_append]
      rw [ih]
    · rfl

theorem handleLong_append (n : Nat) (ch : List Char) :
    (handleLong n ch).1 ++ (handleLong n ch).2 = ch := by
  unfold handleLong
  exact List.take_append_drop _ ch

theorem afterFill_cat (cur rem : List (List Char)) :
    cat (afterFill cur rem).1 ++ cat (afterFill cur rem).2 =
      cat cur ++ cat rem := by
  cases rem with
  | nil => rfl
  | cons ch rest =>
    simp only [afterFill]
    by_cases h : 90 < ch.length
    · rw [if_pos h]
      show cat (cur ++ [(handleLong (lenSum cur) ch).1]) ++
        cat ((handleLong (lenSum cur) ch).2 :: rest) = cat cur ++ cat (ch :: rest)
      rw [cat_append, cat_cons, cat_cons, cat_cons, cat_nil, List.append_nil]
      rw [List.append_assoc, ← List.append_assoc
        (handleLong (lenSum cur) ch).1, handleLong_append]
    · rw [if_neg h]

theorem nonWs_cat_dropLeadWs (b : Bool) (cs : List (List Char)) :
    nonWs (cat (dropLeadWs b cs)) = nonWs (cat cs) := by
  cases cs with
  | nil => rfl
  | cons ch rest =>
    simp only [dropLeadWs]
    by_cases h : (b && stripEmpty ch) = true
    · rw [if_pos h]
      rw [Bool.and_eq_true] at h
      rw [cat_cons, nonWs_append, nonWs_of_stripEmpty ch h.2, List.nil_append]
    · rw [if_neg h]

theorem nonWs_cat_dropTrail (cur : List (List Char)) :
    nonWs (cat (dropTrail cur)) = nonWs (cat cur) := by
  cases h : cur.reverse with
  | nil =>
    have hnil : cur = [] := by simpa using congrArg List.reverse h
    subst hnil
    rfl
  | cons last front =>
    have hcur : cur = front.reverse ++ [last] := by
      simpa using congrArg List.reverse h
    have hd : dropTrail cur =
        if stripEmpty last then front.reverse else cur := by
      unfold dropTrail
      rw [h]
    rw [hd]
    by_cases hse : stripEmpty last = true
    · rw [if_pos hse, hcur, cat_append, nonWs_append]
      have hlast : nonWs (cat [last]) = [] := by
        rw [cat_cons, cat_nil, List.append_nil]
        exact nonWs_of_stripEmpty last hse
      rw [hlast, List.append_nil]
    · rw [if_neg hse]

theorem wrapIter_nonWs (b : Bool) (cs : List (List Char)) :
    nonWs (((wrapIter b cs).1.getD []) ++ cat (wrapIter b cs).2) =
      nonWs (cat cs) := by
  unfold wrapIter
  set cs₁ := dropLeadWs b cs with hcs₁
  set f := fillGo 0 cs₁ with hf
  set a := afterFill f.1 f.2 with ha
  set cur := dropTrail a.1 with hcur
  have hget : (if cur.isEmpty then (none : Option (List Char))
      else some (cat cur)).getD [] = cat cur := by
    split
    · next h => simp_all [List.isEmpty_iff, cat_nil]
    · rfl
  simp only [hget]
  rw [nonWs_append, nonWs_cat_dropTrail, ← nonWs_append]
  have h2 : cat a.1 ++ cat a.2 = cat f.1 ++ cat f.2 := afterFill_cat f.1 f.2
  rw [h2, ← cat_append, fillGo_append]
  exact nonWs_cat_dropLeadWs b cs

theorem wrapGo_nonWs (fuel : Nat) (b : Bool) (cs : List (List Char)) :
    nonWs (cat (wrapGo fuel b cs)) = nonWs (cat cs) := by
  induction fuel generalizing b cs with
  | zero =>
    unfold wrapGo
    split
    · next h => simp_all [List.isEmpty_iff, cat_nil]
    · simp [cat_cons, cat_nil]
  | succ fuel ih =>
    cases cs with
    | nil => rfl
    | cons c rest =>
      show nonWs (cat (match (wrapIter b (c :: rest)).1 with
        | some l => l :: wrapGo fuel true (wrapIter b (c :: rest)).2
        | none => wrapGo fuel b (wrapIter b (c :: rest)).2)) =
        nonWs (cat (c :: rest))
      have hiter := wrapIter_nonWs b (c :: rest)
      cases hl : (wrapIter b (c :: rest)).1 with
      | some l =>
        rw [hl] at hiter
        simp only [Option.getD_some] at hiter
        rw [cat_cons, nonWs_append, ih, ← nonWs_append]
        exact hiter
      | none =>
        rw [hl] at hiter
        simp only [Option.getD_none, List.nil_append] at hiter
        rw [ih]
        exact hiter

theorem twWrapL_nonWs (l : List Char) :
    nonWs (cat (twWrapL l)) = nonWs l := by
  unfold twWrapL twChunks
  rw [wrapGo_nonWs, chunksGo_cat]
  exact nonWs_expandTabs 0 l

theorem cat_map_data_map_mk (xs : List (List Char)) :
    cat ((xs.map String.mk).map String.data) = cat xs := by
  induction xs with
  | nil => rfl
  | cons a t ih => rw [List.map_cons, List.map_cons, cat_cons, cat_cons, ih]

theorem processLine_nonWs (line : String) :
    nonWs (cat ((App.processLine line).map String.data)) =
      nonWs line.data := by
  unfold App.processLine
  by_cases h : pyStrip line = ""
  · rw [if_pos h]
    have hs : stripL line.data = [] := congrArg String.data h
    have h0 : nonWs line.data = [] := by rw [← nonWs_stripL, hs]; rfl
    rw [h0]
    rfl
  · rw [if_neg h]
    show nonWs (cat ((if App.wrapStageHeading (pyStrip line) = true
        then [pyStrip line] else twWrap (pyStrip line)).map String.data)) =
      nonWs line.data
    by_cases h2 : App.wrapStageHeading (pyStrip line) = true
    · rw [if_pos h2]
      show nonWs (cat [stripL line.data]) = nonWs line.data
      rw [cat_cons, cat_nil, List.append_nil]
      exact nonWs_stripL line.data
    · rw [if_neg h2]
      show nonWs (cat ((twWrap (pyStrip line)).map String.data)) =
        nonWs line.data
      unfold twWrap
      rw [cat_map_data_map_mk, twWrapL_nonWs]
      exact nonWs_stripL line.data

theorem flatMap_processLine_nonWs (ls : List String) :
    nonWs (cat ((ls.flatMap App.processLine).map String.data)) =
      nonWs (cat (ls.map String.data)) := by
  induction ls with
  | nil => rfl
  | cons a t ih =>
    rw [List.flatMap_cons, List.map_append, cat_append, nonWs_append, ih,
      List.map_cons, cat_cons, nonWs_append, processLine_nonWs]

theorem pyWs_of_nlChar (c : Char) (h : nlChar c = true) : pyWs c = true := by
  simp only [nlChar, Bool.or_eq_true, decide_eq_true_eq] at h
  simp only [pyWs, Bool.or_eq_true, decide_eq_true_eq, Bool.and_eq_true]
  omega

theorem splitlinesGo_nonWs (fuel : Nat) (acc l : List Char) :
    nonWs (cat (splitlinesGo fuel acc l)) = nonWs (acc.reverse ++ l) := by
  induction fuel generalizing acc l with
  | zero =>
    unfold splitlinesGo
    split
    · next h =>
      rw [Bool.and_eq_true, List.isEmpty_iff, List.isEmpty_iff] at h
      rw [h.1, h.2]
      rfl
    · simp [cat_cons, cat_nil]
  | succ fuel ih =>
    cases l with
    | nil =>
      show nonWs (cat (if acc.isEmpty then [] else [acc.reverse])) = _
      by_cases h : acc.isEmpty = true
      · rw [if_pos h, List.isEmpty_iff.mp h]
        rfl
      · rw [if_neg h]
        simp [cat_cons, cat_nil]
    | cons c rest =>
      show nonWs (cat (if nlChar c = true then _ else _)) = _
      by_cases hnl : nlChar c = true
      · rw [if_pos hnl]
        have hws : pyWs c = true := pyWs_of_nlChar c hnl
        have hdropc : ∀ x : List Char, nonWs (c :: x) = nonWs x := by
          intro x
          simp [nonWs, List.filter_cons, hws]
        by_cases hr : c = '\r'
        · rw [if_pos hr]
          cases rest with
          | nil =>
            rw [cat_cons, nonWs_append, ih, List.reverse_nil,
              List.nil_append, nonWs_append, hdropc]
          | cons d rest' =>
            by_cases hd : d = '\n'
            · subst hd
              have hm : (match '\n' :: rest' with
                  | '\n' :: rest' => splitlinesGo fuel [] rest'
                  | _ => splitlinesGo fuel [] ('\n' :: rest')) =
                  splitlinesGo fuel [] rest' := rfl
              rw [hm, cat_cons, nonWs_append, ih, List.reverse_nil,
                List.nil_append, nonWs_append, hdropc]
              have hnn : nonWs ('\n' :: rest') = nonWs rest' := by
                simp only [nonWs, List.filter_cons]
                rw [if_neg (by decide)]
              rw [hnn]
            · have hm : (match d :: rest' with
                  | '\n' :: rest' => splitlinesGo fuel [] rest'
                  | _ => splitlinesGo fuel [] (d :: rest')) =
                  splitlinesGo fuel [] (d :: rest') := by
                cases d with
                | mk v hv =>
                  split
                  · next heq => exact absurd (by injection heq) hd
                  · rfl
              rw [hm, cat_cons, nonWs_append, ih, List.reverse_nil,
                List.nil_append, nonWs_append, hdropc]
        · rw [if_neg hr, cat_cons, nonWs_append, ih, List.reverse_nil,
            List.nil_append, nonWs_append, hdropc]
      · rw [if_neg hnl, ih]
        simp [List.reverse_cons, List.append_assoc]

/-- Claim C1, counterexample to "losing nothing except trailing
whitespace trimmed from each line": the single-line body
`"  " ++ 50×'a' ++ " " ++ 50×'b'` loses its *leading* two spaces to
`strip()` and the *interior* space to the wrap break, so the
re-concatenated lines differ from the trailing-trimmed body. -/
theorem c1_counterexample :
    linesChars (App.wrappedLines
      ("  " ++ String.mk (List.replicate 50 'a') ++ " " ++
        String.mk (List.replicate 50 'b'))) ≠
    specTrailTrimmed
      ("  " ++ String.mk (List.replicate 50 'a') ++ " " ++
        String.mk (List.replicate 50 'b')) := by
  decide

/-- Claim C1 (amended): re-concatenating the classified/wrapped lines
preserves exactly the body's non-whitespace characters, in order —
wrapping and classification lose no non-whitespace character and add
none; the whitespace that may be lost is each line's leading and
trailing whitespace (`strip()`), tab expansion, and whitespace runs
dropped at wrap-break boundaries. -/
theorem c1_roundtrip_nonws (body : String) :
    nonWs (linesChars (App.wrappedLines body)) = nonWs body.data := by
  unfold linesChars App.wrappedLines
  unfold pySplitlines
  have h1 : ((splitlinesL body.data).map String.mk).flatMap App.processLine =
      (splitlinesL body.data).flatMap (fun l => App.processLine ⟨l⟩) := by
    rw [List.flatMap_map]
  rw [h1]
  have h2 : ∀ ls : List (List Char),
      nonWs (cat ((ls.flatMap (fun l => App.processLine ⟨l⟩)).map
        String.data)) = nonWs (cat ls) := by
    intro ls
    have := flatMap_processLine_nonWs (ls.map String.mk)
    rw [List.flatMap_map, cat_map_data_map_mk] at this
    exact this
  rw [h2]
  rw [show cat (splitlinesL body.data) =
    cat (splitlinesGo (body.data.length + 1) [] body.data) from rfl]
  rw [splitlinesGo_nonWs]
  rfl

/-! ## Claim C3: wrapping and word boundaries -/

theorem length_dropWhile_le (p : Char → Bool) (l : List Char) :
    (l.dropWhile p).length ≤ l.length :=
  (List.dropWhile_suffix p).sublist.length_le

theorem expandTabsGo_id (col : Nat) (l : List Char)
    (h : ∀ c ∈ l, c ≠ '\t') : expandTabsGo col l = l := by
  induction l generalizing col with
  | nil => rfl
  | cons c rest ih =>
    unfold expandTabsGo
    rw [if_neg (by simp [h c (List.mem_cons_self c rest)])]
    have hr : ∀ c ∈ rest, c ≠ '\t' := fun d hd =>
      h d (List.mem_cons_of_mem c hd)
    split <;> rw [ih _ hr]

theorem plain_pyWs_eq_twWs (c : Char) (h : plainChar c = true) :
    pyWs c = twWs c := by
  simp only [plainChar, Bool.and_eq_true, Bool.not_eq_true',
    Bool.and_eq_false_iff, decide_eq_true_eq, decide_eq_false_iff_not] at h
  obtain ⟨h1, h2⟩ := h
  rw [Bool.eq_iff_iff]
  simp only [pyWs, twWs, Bool.or_eq_true, decide_eq_true_eq, Bool.and_eq_true]
  omega

theorem hyphBreakHere_false (acc rev rest : List Char)
    (h : ∀ c ∈ acc, c ≠ '-') : hyphBreakHere acc rev rest = false := by
  cases acc with
  | nil => rfl
  | cons c b =>
    have hc : c ≠ '-' := h c (List.mem_cons_self c b)
    simp only [hyphBreakHere]
    rw [decide_eq_false hc]
    rfl

theorem emDashAhead_false (acc rest : List Char)
    (h : ∀ c ∈ rest, c ≠ '-') : emDashAhead acc rest = false := by
  cases acc with
  | nil => rfl
  | cons c b =>
    simp only [emDashAhead]
    have hrun : rest.takeWhile (fun x => decide (x = '-')) = [] := by
      cases rest with
      | nil => rfl
      | cons r rs =>
        rw [List.takeWhile_cons,
          decide_eq_false (h r (List.mem_cons_self r rs))]
        rfl
    rw [hrun]
    simp

theorem wordScan_no_hyphen (rev acc rest : List Char)
    (hacc : ∀ c ∈ acc, c ≠ '-') (hrest : ∀ c ∈ rest, c ≠ '-') :
    wordScan rev acc rest =
      (acc.reverse ++ rest.takeWhile (fun d => !twWs d),
        rest.dropWhile (fun d => !twWs d)) := by
  induction rest generalizing acc with
  | nil => simp [wordScan]
  | cons c rs ih =>
    have hc : c ≠ '-' := hrest c (List.mem_cons_self c rs)
    have hrs : ∀ d ∈ rs, d ≠ '-' := fun d hd =>
      hrest d (List.mem_cons_of_mem c hd)
    simp only [wordScan]
    rw [hyphBreakHere_false acc rev (c :: rs) hacc,
      emDashAhead_false acc (c :: rs) hrest]
    by_cases hw : twWs c = true
    · have hend : endOfWordHere (c :: rs) = true := by
        simp [endOfWordHere, hw]
      rw [hend]
      simp only [Bool.or_true, Bool.false_or, if_pos rfl]
      rw [List.takeWhile_cons, List.dropWhile_cons]
      simp [hw]
    · have hend : endOfWordHere (c :: rs) = false := by
        simp [endOfWordHere, hw]
      rw [hend]
      simp only [Bool.or_false, Bool.false_or, Bool.or_self]
      rw [if_neg (by simp)]
      have hacc' : ∀ d ∈ c :: acc, d ≠ '-' := by
        intro d hd
        rcases List.mem_cons.mp hd with h1 | h1
        · subst h1; exact hc
        · exact hacc d h1
      rw [ih (c :: acc) hacc' hrs]
      rw [List.takeWhile_cons, List.dropWhile_cons]
      simp [hw]

theorem firstChunk_no_hyphen (rev : List Char) (c : Char) (rest : List Char)
    (hw : twWs c = false) (hnh : ∀ d ∈ c :: rest, d ≠ '-') :
    firstChunk rev (c :: rest) =
      (c :: rest.takeWhile (fun d => !twWs d),
        rest.dropWhile (fun d => !twWs d)) := by
  simp only [firstChunk]
  rw [if_neg (by simp [hw])]
  have hed : emDashStandalone rev c rest = false := by
    unfold emDashStandalone
    rw [decide_eq_false (hnh c (List.mem_cons_self c rest))]
    rfl
  rw [hed]
  simp only [Bool.false_eq_true, if_false]
  rw [wordScan_no_hyphen rev [c] rest
    (by
      intro d hd
      simp only [List.mem_singleton] at hd
      rw [hd]
      exact hnh c (List.mem_cons_self c rest))
    (fun d hd => hnh d (List.mem_cons_of_mem c hd))]
  rfl

theorem token_facts (fuel : Nat) : ∀ (l : List Char), l.length < fuel →
    ∀ w ∈ twTokensGo fuel l,
      w ≠ [] ∧ (∀ c ∈ w, twWs c = false) ∧ (∀ c ∈ w, c ∈ l) := by
  induction fuel with
  | zero => intro l hl; omega
  | succ fuel ih =>
    intro l hl w hw
    cases l with
    | nil => simp [twTokensGo] at hw
    | cons c rest =>
      simp only [twTokensGo] at hw
      by_cases hws : twWs c = true
      · rw [if_pos hws] at hw
        have hlen : (rest.dropWhile twWs).length < fuel := by
          have := length_dropWhile_le twWs rest
          simp only [List.length_cons] at hl
          omega
        obtain ⟨h1, h2, h3⟩ := ih (rest.dropWhile twWs) hlen w hw
        exact ⟨h1, h2, fun d hd =>
          List.mem_cons_of_mem c (List.dropWhile_subset twWs (h3 d hd))⟩
      · rw [if_neg hws] at hw
        rcases List.mem_cons.mp hw with h1 | h1
        · subst h1
          refine ⟨by simp, ?_, ?_⟩
          · intro d hd
            rcases List.mem_cons.mp hd with h2 | h2
            · subst h2; exact eq_false_of_ne_true hws
            · have := List.mem_takeWhile_imp h2
              simpa using this
          · intro d hd
            rcases List.mem_cons.mp hd with h2 | h2
            · rw [h2]; exact List.mem_cons_self c rest
            · exact List.mem_cons_of_mem c
                (List.takeWhile_subset (fun d => !twWs d) h2)
        · have hlen : (rest.dropWhile (fun d => !twWs d)).length < fuel := by
            have := length_dropWhile_le (fun d => !twWs d) rest
            simp only [List.length_cons] at hl
            omega
          obtain ⟨g1, g2, g3⟩ :=
            ih (rest.dropWhile (fun d => !twWs d)) hlen w h1
          exact ⟨g1, g2, fun d hd =>
            List.mem_cons_of_mem c
              (List.dropWhile_subset (fun d => !twWs d) (g3 d hd))⟩

theorem hasSeg_append_left (w x t : List Char)
    (h : hasSeg w t = true) : hasSeg w (x ++ t) = true := by
  induction x with
  | nil => simpa using h
  | cons a x' ih =>
    show hasSeg w (a :: (x' ++ t)) = true
    have hdef : hasSeg w (a :: (x' ++ t)) =
        (startsSeg w (a :: (x' ++ t)) || hasSeg w (x' ++ t)) := rfl
    rw [hdef, ih, Bool.or_true]

theorem token_hasSeg (fuel : Nat) : ∀ (l : List Char),
    ∀ w ∈ twTokensGo fuel l, hasSeg w l = true := by
  induction fuel with
  | zero =>
    intro l w hw
    unfold twTokensGo at hw
    split at hw
    · simp at hw
    · simp only [List.mem_singleton] at hw
      subst hw
      exact hasSeg_of_decomp w [] [] w (by simp)
  | succ fuel ih =>
    intro l w hw
    cases l with
    | nil => simp [twTokensGo] at hw
    | cons c rest =>
      simp only [twTokensGo] at hw
      by_cases hws : twWs c = true
      · rw [if_pos hws] at hw
        have hseg := ih (rest.dropWhile twWs) w hw
        obtain ⟨pre, hpre⟩ := List.dropWhile_suffix (l := rest) twWs
        have hcr : c :: rest = (c :: pre) ++ rest.dropWhile twWs := by
          rw [List.cons_append, hpre]
        rw [hcr]
        exact hasSeg_append_left w (c :: pre) _ hseg
      · rw [if_neg hws] at hw
        rcases List.mem_cons.mp hw with h1 | h1
        · subst h1
          refine hasSeg_of_decomp _ []
            (rest.dropWhile (fun d => !twWs d)) _ ?_
          show c :: rest = [] ++
            (c :: rest.takeWhile (fun d => !twWs d)) ++
            rest.dropWhile (fun d => !twWs d)
          simp [List.takeWhile_append_dropWhile]
        · have hseg := ih (rest.dropWhile (fun d => !twWs d)) w h1
          obtain ⟨pre, hpre⟩ :=
            List.dropWhile_suffix (l := rest) (fun d => !twWs d)
          have hcr : c :: rest = (c :: pre) ++
              rest.dropWhile (fun d => !twWs d) := by
            rw [List.cons_append, hpre]
          rw [hcr]
          exact hasSeg_append_left w (c :: pre) _ hseg

/-- On hyphen-free text, every word (maximal non-whitespace run) is a
single `wordsep_re` chunk. -/
theorem token_mem_chunks (n : Nat) : ∀ (l : List Char)
    (fuel₁ fuel₂ : Nat) (rev : List Char), l.length < n →
    l.length < fuel₁ → l.length < fuel₂ → (∀ c ∈ l, c ≠ '-') →
    ∀ w ∈ twTokensGo fuel₂ l, w ∈ chunksGo fuel₁ rev l := by
  induction n with
  | zero => intro l _ _ _ h; omega
  | succ n ih =>
    intro l fuel₁ fuel₂ rev hn h₁ h₂ hh w hw
    cases l with
    | nil =>
      cases fuel₂ with
      | zero => omega
      | succ fuel₂ => simp [twTokensGo] at hw
    | cons c rest =>
      cases fuel₁ with
      | zero => omega
      | succ fuel₁ =>
        cases fuel₂ with
        | zero => omega
        | succ fuel₂ =>
          have hchunks : chunksGo (fuel₁ + 1) rev (c :: rest) =
              (firstChunk rev (c :: rest)).1 ::
                chunksGo fuel₁ ((firstChunk rev (c :: rest)).1.reverse ++ rev)
                  (firstChunk rev (c :: rest)).2 := rfl
          simp only [twTokensGo] at hw
          by_cases hws : twWs c = true
          · rw [if_pos hws] at hw
            have hfc : firstChunk rev (c :: rest) =
                (c :: rest.takeWhile twWs, rest.dropWhile twWs) := by
              simp only [firstChunk]
              rw [if_pos hws]
            rw [hchunks, hfc]
            refine List.mem_cons_of_mem _ ?_
            refine ih (rest.dropWhile twWs) fuel₁ fuel₂ _ ?_ ?_ ?_
              ?_ w hw
            · have := length_dropWhile_le twWs rest
              simp only [List.length_cons] at hn
              omega
            · have := length_dropWhile_le twWs rest
              simp only [List.length_cons] at h₁
              omega
            · have := length_dropWhile_le twWs rest
              simp only [List.length_cons] at h₂
              omega
            · intro d hd
              exact hh d (List.mem_cons_of_mem c
                (List.dropWhile_subset twWs hd))
          · rw [if_neg hws] at hw
            have hfc := firstChunk_no_hyphen rev c rest
              (eq_false_of_ne_true hws) hh
            rw [hchunks, hfc]
            rcases List.mem_cons.mp hw with h1 | h1
            · subst h1
              exact List.mem_cons_self _ _
            · refine List.mem_cons_of_mem _ ?_
              refine ih (rest.dropWhile (fun d => !twWs d)) fuel₁
                fuel₂ _ ?_ ?_ ?_ ?_ w h1
              · have := length_dropWhile_le (fun d => !twWs d) rest
                simp only [List.length_cons] at hn
                omega
              · have := length_dropWhile_le (fun d => !twWs d) rest
                simp only [List.length_cons] at h₁
                omega
              · have := length_dropWhile_le (fun d => !twWs d) rest
                simp only [List.length_cons] at h₂
                omega
              · intro d hd
                exact hh d (List.mem_cons_of_mem c
                  (List.dropWhile_subset (fun d => !twWs d) hd))

theorem mem_dropLeadWs (b : Bool) (cs : List (List Char)) (w : List Char)
    (hmem : w ∈ cs) (hnws : stripEmpty w = false) :
    w ∈ dropLeadWs b cs := by
  cases cs with
  | nil => simp at hmem
  | cons ch rest =>
    simp only [dropLeadWs]
    by_cases h : (b && stripEmpty ch) = true
    · rw [if_pos h]
      rcases List.mem_cons.mp hmem with h1 | h1
      · subst h1
        rw [Bool.and_eq_true] at h
        rw [h.2] at hnws
        exact absurd hnws (by simp)
      · exact h1
    · rw [if_neg h]
      exact hmem

theorem mem_afterFill_left (cur rem : List (List Char)) (w : List Char)
    (hmem : w ∈ cur) : w ∈ (afterFill cur rem).1 := by
  cases rem with
  | nil => exact hmem
  | cons ch rest =>
    simp only [afterFill]
    by_cases h : 90 < ch.length
    · rw [if_pos h]
      exact List.mem_append_left _ hmem
    · rw [if_neg h]
      exact hmem

theorem mem_dropTrail (cur : List (List Char)) (w : List Char)
    (hmem : w ∈ cur) (hnws : stripEmpty w = false) :
    w ∈ dropTrail cur := by
  cases h : cur.reverse with
  | nil =>
    have hnil : cur = [] := by simpa using congrArg List.reverse h
    subst hnil
    simp at hmem
  | cons last front =>
    have hcur : cur = front.reverse ++ [last] := by
      simpa using congrArg List.reverse h
    have hd : dropTrail cur =
        if stripEmpty last then front.reverse else cur := by
      unfold dropTrail
      rw [h]
    rw [hd]
    by_cases hse : stripEmpty last = true
    · rw [if_pos hse]
      rw [hcur] at hmem
      rcases List.mem_append.mp hmem with h1 | h1
      · exact h1
      · simp only [List.mem_singleton] at h1
        subst h1
        rw [hse] at hnws
        exact absurd hnws (by simp)
    · rw [if_neg hse]
      exact hmem

theorem wrapIter_mem (b : Bool) (cs : List (List Char)) (w : List Char)
    (hmem : w ∈ cs) (hlen : w.length ≤ 90) (hnws : stripEmpty w = false) :
    (∃ l, (wrapIter b cs).1 = some l ∧ hasSeg w l = true) ∨
      w ∈ (wrapIter b cs).2 := by
  have h1 : w ∈ dropLeadWs b cs := mem_dropLeadWs b cs w hmem hnws
  have hsplit : (fillGo 0 (dropLeadWs b cs)).1 ++
      (fillGo 0 (dropLeadWs b cs)).2 = dropLeadWs b cs :=
    fillGo_append 0 (dropLeadWs b cs)
  rw [← hsplit] at h1
  set f1 := (fillGo 0 (dropLeadWs b cs)).1 with hf1
  set f2 := (fillGo 0 (dropLeadWs b cs)).2 with hf2
  have hiter1 : (wrapIter b cs).1 =
      (if (dropTrail (afterFill f1 f2).1).isEmpty then none
       else some (cat (dropTrail (afterFill f1 f2).1))) := rfl
  have hiter2 : (wrapIter b cs).2 = (afterFill f1 f2).2 := rfl
  rcases List.mem_append.mp h1 with hL | hR
  · left
    have h2 : w ∈ (afterFill f1 f2).1 := mem_afterFill_left f1 f2 w hL
    have h3 : w ∈ dropTrail (afterFill f1 f2).1 :=
      mem_dropTrail _ w h2 hnws
    have h4 : (dropTrail (afterFill f1 f2).1).isEmpty = false := by
      cases hdt : dropTrail (afterFill f1 f2).1 with
      | nil => rw [hdt] at h3; simp at h3
      | cons a t => rfl
    refine ⟨cat (dropTrail (afterFill f1 f2).1), ?_, ?_⟩
    · rw [hiter1, h4]
      rfl
    · exact hasSeg_cat_of_mem w _ h3
  · right
    rw [hiter2]
    cases hf : f2 with
    | nil =>
      rw [hf] at hR
      simp at hR
    | cons ch rest =>
      rw [hf] at hR
      simp only [afterFill]
      by_cases h : 90 < ch.length
      · rw [if_pos h]
        rcases List.mem_cons.mp hR with h1' | h1'
        · subst h1'
          omega
        · exact List.mem_cons_of_mem _ h1'
      · rw [if_neg h]
        exact hR

theorem wrapGo_places (fuel : Nat) : ∀ (b : Bool) (cs : List (List Char))
    (w : List Char), w ∈ cs → w.length ≤ 90 → stripEmpty w = false →
    ∃ line ∈ wrapGo fuel b cs, hasSeg w line = true := by
  induction fuel with
  | zero =>
    intro b cs w hmem hlen hnws
    have hne : cs ≠ [] := List.ne_nil_of_mem hmem
    refine ⟨cat cs, ?_, hasSeg_cat_of_mem w cs hmem⟩
    unfold wrapGo
    rw [if_neg (by simpa [List.isEmpty_iff] using hne)]
    exact List.mem_singleton.mpr rfl
  | succ fuel ih =>
    intro b cs w hmem hlen hnws
    cases cs with
    | nil => simp at hmem
    | cons x xs =>
      have hgo : wrapGo (fuel + 1) b (x :: xs) =
          (match (wrapIter b (x :: xs)).1 with
           | some l => l :: wrapGo fuel true (wrapIter b (x :: xs)).2
           | none => wrapGo fuel b (wrapIter b (x :: xs)).2) := rfl
      rcases wrapIter_mem b (x :: xs) w hmem hlen hnws with
        ⟨l, hsome, hseg⟩ | hmem2
      · rw [hgo, hsome]
        exact ⟨l, List.mem_cons_self l _, hseg⟩
      · cases hs : (wrapIter b (x :: xs)).1 with
        | some l =>
          rw [hgo, hs]
          obtain ⟨line, hline, hseg⟩ :=
            ih true (wrapIter b (x :: xs)).2 w hmem2 hlen hnws
          exact ⟨line, List.mem_cons_of_mem l hline, hseg⟩
        | none =>
          rw [hgo, hs]
          exact ih b (wrapIter b (x :: xs)).2 w hmem2 hlen hnws

/-- Claim C3, counterexample to "wrapping never splits inside a word":
a 91-character word exceeds the 90-column width, and
`break_long_words=True` splits it at the width boundary — the word
appears contiguously in no wrapped output line. -/
theorem c3_counterexample :
    App.processLine (String.mk (List.replicate 91 'a')) =
      [String.mk (List.replicate 90 'a'), "a"] ∧
    hasSeg (List.replicate 91 'a') (List.replicate 90 'a') = false ∧
    hasSeg (List.replicate 91 'a') ("a" : String).data = false := by
  refine ⟨by decide, by decide, by decide⟩

/-- Claim C3 (amended): on hyphen-free plain-ASCII lines (no tabs),
word-wrapping at width 90 never splits inside a word of length at most
90: every such word of the line appears contiguously within a single
emitted line.  (A word longer than 90 characters is split at the width
boundary — see the counterexample — and a hyphenated word may
additionally be split after a hyphen, per `break_on_hyphens`.) -/
theorem c3_no_split_inside_word (line : String)
    (hplain : ∀ c ∈ line.data, plainChar c = true)
    (hnh : ∀ c ∈ line.data, c ≠ '-')
    (hnt : ∀ c ∈ line.data, c ≠ '\t') :
    ∀ w ∈ twTokens (pyStrip line).data, w.length ≤ 90 →
      ∃ out ∈ App.processLine line, hasSeg w out.data = true := by
  intro w hw hlen
  have hsub : ∀ c ∈ (pyStrip line).data, c ∈ line.data := fun c hc =>
    mem_of_mem_stripL line.data c hc
  obtain ⟨hne, hals, hmem⟩ :=
    token_facts ((pyStrip line).data.length + 1) (pyStrip line).data
      (Nat.lt_succ_self _) w hw
  unfold App.processLine
  by_cases hblank : pyStrip line = ""
  · exfalso
    rw [hblank] at hw
    simp [twTokens, twTokensGo] at hw
  · rw [if_neg hblank]
    show ∃ out ∈ (if App.wrapStageHeading (pyStrip line) = true
        then [pyStrip line] else twWrap (pyStrip line)),
      hasSeg w out.data = true
    by_cases hhead : App.wrapStageHeading (pyStrip line) = true
    · rw [if_pos hhead]
      exact ⟨pyStrip line, List.mem_singleton.mpr rfl,
        token_hasSeg _ _ w hw⟩
    · rw [if_neg hhead]
      have hnh' : ∀ c ∈ (pyStrip line).data, c ≠ '-' := fun c hc =>
        hnh c (hsub c hc)
      have hnt' : ∀ c ∈ (pyStrip line).data, c ≠ '\t' := fun c hc =>
        hnt c (hsub c hc)
      obtain ⟨c0, hc0⟩ : ∃ c, c ∈ w := by
        cases w with
        | nil => exact absurd rfl hne
        | cons a t => exact ⟨a, List.mem_cons_self a t⟩
      have hc0l : c0 ∈ (pyStrip line).data := hmem c0 hc0
      have hc0py : pyWs c0 = false := by
        rw [plain_pyWs_eq_twWs c0 (hplain c0 (hsub c0 hc0l))]
        exact hals c0 hc0
      have hnws : stripEmpty w = false := by
        rw [stripEmpty, List.all_eq_false]
        exact ⟨c0, hc0, by simp [hc0py]⟩
      have hchunk : w ∈ twChunks (pyStrip line).data :=
        token_mem_chunks ((pyStrip line).data.length + 1) _
          ((pyStrip line).data.length + 1) ((pyStrip line).data.length + 1)
          [] (Nat.lt_succ_self _) (Nat.lt_succ_self _) (Nat.lt_succ_self _)
          hnh' w hw
      have hexp : expandTabsGo 0 (pyStrip line).data =
          (pyStrip line).data := expandTabsGo_id 0 _ hnt'
      have hwl : twWrapL (pyStrip line).data =
          wrapGo ((cat (twChunks (pyStrip line).data)).length +
              (twChunks (pyStrip line).data).length + 1)
            false (twChunks (pyStrip line).data) := by
        unfold twWrapL
        rw [hexp]
      obtain ⟨ld, hld, hseg⟩ := wrapGo_places _ false
        (twChunks (pyStrip line).data) w hchunk hlen hnws
      refine ⟨String.mk ld, ?_, hseg⟩
      unfold twWrap
      rw [hwl]
      exact List.mem_map_of_mem String.mk hld

/-- Witness for C3 at the concrete line `"hello world"` and its word
`"hello"`. -/
theorem c3_no_split_inside_word_witness :
    (∀ c ∈ ("hello world" : String).data, plainChar c = true) ∧
    (∀ c ∈ ("hello world" : String).data, c ≠ '-') ∧
    (∀ c ∈ ("hello world" : String).data, c ≠ '\t') ∧
    ("hello" : String).data ∈ twTokens (pyStrip "hello world").data ∧
    (("hello" : String).data.length ≤ 90 ∧
      ∃ out ∈ App.processLine "hello world",
        hasSeg ("hello" : String).data out.data = true) :=
  ⟨by decide, by decide, by decide, by decide, by decide,
    c3_no_split_inside_word "hello world" (by decide) (by decide)
      (by decide) ("hello" : String).data (by decide) (by decide)⟩
